import Mathlib

/-!
Verification of the CLI-Chat server and encryption subsystem.

This file shallowly embeds the parts of the repository that the checked
properties speak about:

* `src/backend/server.py` — `ChatServer.handle_command`, the registration /
  unregistration bookkeeping of `ChatServer.handle_client`, and
  `ChatServer.notify_all`;
* `src/utils/encryption.py` — `EncryptionManager.encrypt_message` and
  `EncryptionManager.decrypt_message`;
* `src/frontend/client.py` — the file-receive handler of
  `ChatClient.display_message`.

Python strings are modeled as lists of `Char`, bytes as lists of `Nat`
(each `< 256`), dictionaries as association lists, and the database as
in-memory lists of records.  Network sends, broadcasts and socket closes
are modeled as an explicit list of output effects.  The wall clock is an
abstract `Nat`; `datetime.isoformat` is modeled as the (injective) decimal
rendering of that abstract clock, which no checked property inspects.

External cryptographic primitives (the `cryptography` package) are not
repository code: the AES block function is a parameter `E` constrained by
its documented block-cipher contract (16-byte output), and RSA-OAEP is a
parameter pair (wrap, unwrap) constrained by its documented round-trip
contract.  Every theorem about the encryption pipeline quantifies over all
primitives satisfying those contracts, so in particular it holds for the
real AES-256 / RSA-2048-OAEP.  CFB mode, base64, UTF-8 and the fixed-shape
JSON envelope are implemented concretely, following the source.
-/

namespace CliChat

/-- Python `str`, modeled as a list of characters. -/
abbrev Str := List Char

/-- Coerce a Lean string literal into the `Str` model. -/
def str (s : String) : Str := s.data

/-- Model of `str.lower()` on one character: ASCII uppercase (codepoints 65–90) maps
to lowercase (the commands and usernames exercised here are ASCII; Python's
full Unicode case folding agrees with this on ASCII). -/
def lowerChar (c : Char) : Char :=
  if 65 ≤ c.toNat ∧ c.toNat ≤ 90 then Char.ofNat (c.toNat + 32) else c

/-- Python `str.lower()`. -/
def pyLower (s : Str) : Str := s.map lowerChar

/-- Python `str.strip()` whitespace set (ASCII: space, tab, newline,
carriage return, vertical tab, form feed). -/
def isPySpace (c : Char) : Bool :=
  c.toNat = 32 ∨ c.toNat = 9 ∨ c.toNat = 10 ∨ c.toNat = 13 ∨
    c.toNat = 11 ∨ c.toNat = 12

/-- Python `str.strip()`. -/
def pyStrip (s : Str) : Str :=
  ((s.dropWhile isPySpace).reverse.dropWhile isPySpace).reverse

/-- Split a string at the first occurrence of `sep`; `none` when `sep` does
not occur.  Building block for Python's `str.split(sep, maxsplit)`. -/
def splitOnceChar (sep : Char) : Str → Option (Str × Str)
  | [] => none
  | c :: cs =>
    if c = sep then some ([], cs)
    else (splitOnceChar sep cs).map (fun p => (c :: p.1, p.2))

/-- Python `s.split(sep, 2)` for a one-character separator: at most three
parts, empty parts kept (as Python does for an explicit separator). -/
def pySplit2 (sep : Char) (s : Str) : List Str :=
  match splitOnceChar sep s with
  | none => [s]
  | some (a, rest) =>
    match splitOnceChar sep rest with
    | none => [a, rest]
    | some (b, rest2) => [a, b, rest2]

/-- Python `s.split(sep, 1)` for a one-character separator. -/
def pySplit1 (sep : Char) (s : Str) : List Str :=
  match splitOnceChar sep s with
  | none => [s]
  | some (a, rest) => [a, rest]

/-- Python `", ".join(...)`. -/
def joinComma : List Str → Str
  | [] => []
  | [x] => x
  | x :: xs => x ++ str ", " ++ joinComma xs

/-- Decimal rendering of a natural number (for f-string interpolation of
sizes, and as the model of `datetime.isoformat` on the abstract clock). -/
def natToStr (n : Nat) : Str := (toString n).data

/-- Model of `datetime.now(timezone.utc).isoformat()` on the abstract clock `now`. -/
def isoStr (now : Nat) : Str := natToStr now

/-- Insert into a Python dict modeled as an association list: assignment
replaces the value under an existing key, otherwise appends. -/
def dictInsert {α β : Type} [DecidableEq α] (m : List (α × β)) (k : α) (v : β) :
    List (α × β) :=
  if m.any (fun p => p.1 = k) then m.map (fun p => if p.1 = k then (k, v) else p)
  else m ++ [(k, v)]

/-- Dict lookup (`m[k]` / `k in m`). -/
def dictGet {α β : Type} [DecidableEq α] (m : List (α × β)) (k : α) : Option β :=
  (m.find? (fun p => p.1 = k)).map (·.2)

/-! ## Server data model (`src/backend/server.py`, `src/database/models.py`) -/

/-- One persisted row of the `messages` table, with the user id resolved to
its username (`server.py` always stores/queries messages through the
username it just looked up). -/
structure MessageRec where
  username : Str
  content : Str
  type : Str
  timestamp : Nat
deriving DecidableEq

/-- One persisted row of the `file_transfers` table
(models.FileTransfer, with user ids resolved to usernames). -/
structure FileTransferRec where
  filename : Str
  size : Nat
  senderName : Str
  receiverName : Str
  status : Str
  fileHash : Str
deriving DecidableEq

/-- A server-to-client JSON event, modeled as a tagged record; `json.dumps`
of the dictionaries built in `server.py` is injective on these shapes, so
events are compared structurally. -/
inductive Event where
  | commandResponse (content : Str)
  | whisper (username content timestamp : Str)
  | fileEvent (username filename : Str) (size : Nat) (data hash timestamp : Str)
  | notification (username content : Str)
  | chat (username content timestamp : Str)
deriving DecidableEq

/-- One network effect of a handler: a targeted send to the calling socket,
a targeted send to a named user (`notify_user`), a fan-out to every client
(`notify_all`), or closing the calling socket. -/
inductive Out where
  | toCaller (e : Event)
  | toUser (username : Str) (e : Event)
  | broadcast (e : Event)
  | closeCaller
deriving DecidableEq

/-- The mutable state of `ChatServer`: the connection set, the two
session dictionaries, the moderator socket, the shutdown flag, and the
persisted tables.  Websockets are opaque handles (`Nat`). -/
structure ServerState where
  moderatorUsername : Str
  clients : List Nat
  onlineUsers : List (Nat × Str)
  userWebsockets : List (Str × Nat)
  moderatorWs : Option Nat
  moderatorDisconnectEvent : Bool
  dbUsers : List Str
  messages : List MessageRec
  fileTransfers : List FileTransferRec
deriving DecidableEq

/-- The 10 MiB fixed file-size limit of the file handler. -/
def MAX_FILE_SIZE : Nat := 10 * 1024 * 1024

/-! ## Base64 (`base64.b64encode` / `base64.b64decode`) -/

/-- Value of one base64 alphabet character; `none` off the alphabet
(including the pad `'='`). -/
def b64Val (c : Char) : Option Nat :=
  if 'A' ≤ c ∧ c ≤ 'Z' then some (c.toNat - 65)
  else if 'a' ≤ c ∧ c ≤ 'z' then some (c.toNat - 97 + 26)
  else if '0' ≤ c ∧ c ≤ '9' then some (c.toNat - 48 + 52)
  else if c = '+' then some 62
  else if c = '/' then some 63
  else none

/-- The base64 alphabet character for a 6-bit value. -/
def encChar (v : Nat) : Char :=
  if v < 26 then Char.ofNat (65 + v)
  else if v < 52 then Char.ofNat (97 + (v - 26))
  else if v < 62 then Char.ofNat (48 + (v - 52))
  else if v = 62 then '+'
  else '/'

/-- Model of `base64.b64encode` on a byte list, producing the padded text form. -/
def b64encode : List Nat → Str
  | [] => []
  | [b1] => [encChar (b1 / 4), encChar ((b1 % 4) * 16), '=', '=']
  | [b1, b2] => [encChar (b1 / 4), encChar ((b1 % 4) * 16 + b2 / 16),
                 encChar ((b2 % 16) * 4), '=']
  | b1 :: b2 :: b3 :: rest =>
    encChar (b1 / 4) :: encChar ((b1 % 4) * 16 + b2 / 16) ::
    encChar ((b2 % 16) * 4 + b3 / 64) :: encChar (b3 % 64) :: b64encode rest

/-- Characters `binascii.a2b_base64` pays attention to (alphabet + pad);
everything else is discarded before decoding (`validate=False`). -/
def isB64Sym (c : Char) : Bool := (b64Val c).isSome || c = '='

/-- Decode a stream of base64 symbols four at a time; requires correct
padding, as `binascii` does in its default non-validating mode (length a
multiple of four after discarding foreign characters, pad only at the
end). -/
def decodeQuads : List Char → Option (List Nat)
  | [] => some []
  | a :: b :: cc :: d :: rest =>
    if cc = '=' then
      if d = '=' ∧ rest = [] then
        match b64Val a, b64Val b with
        | some va, some vb => some [va * 4 + vb / 16]
        | _, _ => none
      else none
    else if d = '=' then
      if rest = [] then
        match b64Val a, b64Val b, b64Val cc with
        | some va, some vb, some vc => some [va * 4 + vb / 16, (vb % 16) * 16 + vc / 4]
        | _, _, _ => none
      else none
    else
      match b64Val a, b64Val b, b64Val cc, b64Val d, decodeQuads rest with
      | some va, some vb, some vc, some vd, some tail =>
        some ((va * 4 + vb / 16) :: ((vb % 16) * 16 + vc / 4) ::
              ((vc % 4) * 64 + vd) :: tail)
      | _, _, _, _, _ => none
  | _ => none

/-- Model of `base64.b64decode` (default mode): discard foreign characters, then
decode in quads; `none` models the `binascii.Error` raised on bad
padding. -/
def b64decode (s : Str) : Option (List Nat) :=
  decodeQuads (s.filter isB64Sym)

/-! ## The command handler (`ChatServer.handle_command`) -/

/-- The `/whisper` / `/w` branch body of `handle_command`, after the target
and payload have been extracted from `cmd.split(" ", 2)` (both therefore
already stripped and lowercased by the dispatcher). -/
def whisperBranch (st : ServerState) (sender target privateMessage : Str)
    (now : Nat) : ServerState × List Out :=
  if dictGet st.userWebsockets target = none then
    (st, [.toCaller (.commandResponse
      (str "User " ++ target ++ str " is not online."))])
  else
    (st, [.toUser target (.whisper sender privateMessage (isoStr now)),
          .toCaller (.commandResponse (str "Whisper sent to " ++ target))])

/-- The `/file` branch body of `handle_command`, after the target and
`filename;base64` payload have been extracted from `cmd.split(" ", 2)`.
Mirrors the source order: online check, then the `try` block with
semicolon split, base64 decode, size check, sender/receiver lookup
(`ValueError("User not found")` if either is missing — the generic
handlers render `ValueError` as `"Error: <text>"`), record insert, file
event to the target, confirmation to the sender.  `sha256hex` is the
external `hashlib.sha256(...).hexdigest()` primitive, a parameter. -/
def fileBranch (sha256hex : List Nat → Str) (st : ServerState)
    (sender target fileData : Str) (now : Nat) : ServerState × List Out :=
  if dictGet st.userWebsockets target = none then
    (st, [.toCaller (.commandResponse
      (str "User " ++ target ++ str " is not online."))])
  else
    match pySplit1 ';' fileData with
    | [filename, base64Data] =>
      match b64decode base64Data with
      | none => (st, [.toCaller (.commandResponse (str "Error: Invalid base64 data"))])
      | some decodedData =>
        let fileSize := decodedData.length
        if fileSize > MAX_FILE_SIZE then
          (st, [.toCaller (.commandResponse
            (str "File too large. Maximum size is 10MB."))])
        else if sender ∈ st.dbUsers ∧ target ∈ st.dbUsers then
          let fileHash := sha256hex decodedData
          let record : FileTransferRec :=
            ⟨filename, fileSize, sender, target, str "completed", fileHash⟩
          ({ st with fileTransfers := st.fileTransfers ++ [record] },
           [.toUser target
              (.fileEvent sender filename fileSize base64Data fileHash (isoStr now)),
            .toCaller (.commandResponse
              (str "File '" ++ filename ++ str "' (" ++ natToStr fileSize ++
               str " bytes) sent to " ++ target))])
        else
          (st, [.toCaller (.commandResponse (str "Error: User not found"))])
    | _ => (st, [.toCaller (.commandResponse (str "Error: Invalid file format"))])

/-- The body of `handle_command` applied to the already stripped-and-
lowercased line `cmd` (the source computes
`cmd = command.strip().lower()` and works on `cmd` throughout). -/
def dispatchCmd (sha256hex : List Nat → Str) (st : ServerState)
    (sender cmd : Str) (now : Nat) : ServerState × List Out :=
  if cmd = str "/users" then
    (st, [.toCaller (.commandResponse
      (str "Online users: " ++ joinComma (st.onlineUsers.map (·.2))))])
  else if cmd = str "/clear" then
    if sender = st.moderatorUsername then
      let clearPoint := now
      let kept := st.messages.filter fun m =>
        ¬(m.timestamp < clearPoint ∧
          (m.type = str "chat" ∨ m.type = str "notification"))
      let clearMsg : MessageRec :=
        ⟨sender, str "cleared the chat history.", str "clear", now⟩
      ({ st with messages := kept ++ [clearMsg] },
       [.broadcast (.notification (str "*" ++ st.moderatorUsername)
          (str "cleared the chat history."))])
    else
      (st, [.toCaller (.commandResponse
        (str "Permission denied. Only moderators can clear chat history."))])
  else if cmd = str "/quit" ∨ cmd = str "/exit" then
    (st, [.toCaller (.commandResponse (str "Disconnecting...")), .closeCaller])
  else if (str "/whisper ").isPrefixOf cmd ∨ (str "/w ").isPrefixOf cmd then
    match pySplit2 ' ' cmd with
    | [_, target, privateMessage] => whisperBranch st sender target privateMessage now
    | _ => (st, [.toCaller (.commandResponse
        (str "Usage: /whisper <username> <message> or /w <username> <message>"))])
  else if (str "/file ").isPrefixOf cmd then
    match pySplit2 ' ' cmd with
    | [_, target, fileData] => fileBranch sha256hex st sender target fileData now
    | _ => (st, [.toCaller (.commandResponse
        (str "Usage: /file <username> <base64_encoded_file>"))])
  else
    (st, [.toCaller (.commandResponse
      (str "Unknown command. Available commands: /users, /whisper, /w, /file, /clear, /quit, /exit"))])

/-- Model of `ChatServer.handle_command(websocket, username, command)`: strips and
lowercases the whole line, then dispatches on it. -/
def handle_command (sha256hex : List Nat → Str) (st : ServerState)
    (sender command : Str) (now : Nat) : ServerState × List Out :=
  dispatchCmd sha256hex st sender (pyLower (pyStrip command)) now

/-! ## Registration and moderator bookkeeping (`ChatServer.handle_client`) -/

/-- The post-authentication registration block of `handle_client`
(lines 274–280): record the session in both dictionaries and claim the
moderator socket if this is the moderator name and the role is free.
(The connection is added to `clients` when the socket is opened; the join
notification and history replay are side channels no checked property
inspects and are elided.) -/
def registerUser (st : ServerState) (ws : Nat) (username : Str) : ServerState :=
  { st with
    clients := if ws ∈ st.clients then st.clients else st.clients ++ [ws]
    onlineUsers := dictInsert st.onlineUsers ws username
    userWebsockets := dictInsert st.userWebsockets username ws
    moderatorWs :=
      if username = st.moderatorUsername ∧ st.moderatorWs = none then some ws
      else st.moderatorWs }

/-- The `finally` cleanup block of `handle_client` (lines 322–362): drop
the connection, remove both dictionary entries, and — if the closing
socket was the moderator socket — release the role and raise the
shutdown event.  (The leave notification/persisted row is elided; it is a
`"leave"`-typed row no checked property inspects.) -/
def unregisterUser (st : ServerState) (ws : Nat) : ServerState :=
  let st1 := { st with clients := st.clients.filter (fun c => c ≠ ws) }
  let st2 :=
    match dictGet st1.onlineUsers ws with
    | some username =>
      { st1 with
        onlineUsers := st1.onlineUsers.filter (fun p => p.1 ≠ ws)
        userWebsockets := st1.userWebsockets.filter (fun p => p.1 ≠ username) }
    | none => st1
  if st2.moderatorWs = some ws then
    { st2 with moderatorWs := none, moderatorDisconnectEvent := true }
  else st2

/-- A registry operation: a session registering after authentication, or a
session closing. -/
inductive RegOp where
  | reg (ws : Nat) (username : Str)
  | unreg (ws : Nat)

/-- Apply one registry operation. -/
def applyOp (st : ServerState) : RegOp → ServerState
  | .reg ws username => registerUser st ws username
  | .unreg ws => unregisterUser st ws

/-- Apply a sequence of registry operations, oldest first. -/
def applyOps (st : ServerState) (ops : List RegOp) : ServerState :=
  ops.foldl applyOp st

/-- Session `ws` holds the moderator role in state `st`. -/
abbrev holdsModerator (st : ServerState) (ws : Nat) : Prop :=
  st.moderatorWs = some ws

/-! ## Broadcast (`ChatServer.notify_all`) -/

/-- Outcome of one `client.send`: success, or the exception value that
`asyncio.gather(..., return_exceptions=True)` stores in place of a
result. -/
inductive SendResult where
  | ok
  | error
deriving DecidableEq

/-- Model of `ChatServer.notify_all`: an `asyncio.gather` with exceptions kept
over every registered client.  Each send attempt is independent; an
exception becomes a value in the result list (it is only logged), so the
function is total — the caller never sees a failure. -/
def notify_all (clients : List Nat) (send : Nat → SendResult) : List SendResult :=
  clients.map send

/-- Is a send outcome a success? -/
def sendOk : SendResult → Bool
  | .ok => true
  | .error => false

/-- The clients a `notify_all` fan-out actually delivered to. -/
def deliveredTo (clients : List Nat) (send : Nat → SendResult) : List Nat :=
  clients.filter (fun c => sendOk (send c))

/-! ## Client-side file receive (`ChatClient.display_message`, `"file"` arm) -/

/-- Outcome of the receiver-side handling of a `file` event. -/
inductive FileOutcome where
  | notSaved
  | saved (bytes : List Nat)
  | savedAfterWarning (bytes : List Nat)
  | saveError
deriving DecidableEq

/-- The `"file"` arm of `ChatClient.display_message` (client.py, lines
484–520): prompt to save; decode; recompute the SHA-256 of the decoded
bytes; on a mismatch with the advertised hash print a warning and require
an explicit second confirmation before keeping the file.  Any exception in
the save path (e.g. undecodable data) is caught and reported
(`saveError`).  Prompt answers are compared lowercased, as in the
source. -/
def clientFileReceive (sha256hex : List Nat → Str) (fileHash data : Str)
    (savePrompt verifyPrompt : Str) : FileOutcome :=
  if pyLower savePrompt = str "y" then
    match b64decode data with
    | none => .saveError
    | some decoded =>
      let computedHash := sha256hex decoded
      if computedHash ≠ fileHash then
        if pyLower verifyPrompt ≠ str "y" then .notSaved
        else .savedAfterWarning decoded
      else .saved decoded
  else .notSaved

/-! ## Lemmas about the Python string primitives -/

theorem toNat_ofNat_valid {n : Nat} (h : n.isValidChar) :
    (Char.ofNat n).toNat = n := by
  simp only [Char.ofNat, dif_pos h, Char.ofNatAux, Char.toNat]
  simp [UInt32.toNat]

theorem lowerChar_toNat (c : Char) :
    (lowerChar c).toNat =
      if 65 ≤ c.toNat ∧ c.toNat ≤ 90 then c.toNat + 32 else c.toNat := by
  unfold lowerChar
  by_cases h : 65 ≤ c.toNat ∧ c.toNat ≤ 90
  · rw [if_pos h, if_pos h, toNat_ofNat_valid]
    exact Or.inl (by omega)
  · rw [if_neg h, if_neg h]

theorem lowerChar_eq_self {c : Char} (h : ¬(65 ≤ c.toNat ∧ c.toNat ≤ 90)) :
    lowerChar c = c := by
  unfold lowerChar
  exact if_neg h

theorem lowerChar_idem (c : Char) : lowerChar (lowerChar c) = lowerChar c := by
  have h1 := lowerChar_toNat c
  by_cases h : 65 ≤ c.toNat ∧ c.toNat ≤ 90
  · rw [if_pos h] at h1
    exact lowerChar_eq_self (by omega)
  · rw [if_neg h] at h1
    exact lowerChar_eq_self (by omega)

theorem isPySpace_lowerChar (c : Char) : isPySpace (lowerChar c) = isPySpace c := by
  have h1 := lowerChar_toNat c
  by_cases h : 65 ≤ c.toNat ∧ c.toNat ≤ 90
  · rw [if_pos h] at h1
    have e1 : isPySpace (lowerChar c) = false := by
      simp only [isPySpace, h1, decide_eq_false_iff_not]
      omega
    have e2 : isPySpace c = false := by
      simp only [isPySpace, decide_eq_false_iff_not]
      omega
    rw [e1, e2]
  · rw [if_neg h] at h1
    simp only [isPySpace, h1]

theorem pyLower_idem (s : Str) : pyLower (pyLower s) = pyLower s := by
  unfold pyLower
  rw [List.map_map]
  exact List.map_congr_left fun c _ => lowerChar_idem c

theorem isPySpace_comp_lowerChar : (isPySpace ∘ lowerChar) = isPySpace :=
  funext fun c => isPySpace_lowerChar c

theorem pyStrip_pyLower (s : Str) : pyStrip (pyLower s) = pyLower (pyStrip s) := by
  unfold pyStrip pyLower
  rw [List.dropWhile_map, isPySpace_comp_lowerChar, ← List.map_reverse,
    List.dropWhile_map, isPySpace_comp_lowerChar, ← List.map_reverse]

theorem dropWhile_dropWhile (p : Char → Bool) (l : Str) :
    (l.dropWhile p).dropWhile p = l.dropWhile p := by
  induction l with
  | nil => rfl
  | cons a t ih =>
    by_cases h : p a
    · rw [List.dropWhile_cons_of_pos h, ih]
    · rw [List.dropWhile_cons_of_neg h, List.dropWhile_cons_of_neg h]

theorem dropWhile_eq_self_of_prefix {p : Char → Bool} {l l' : Str}
    (hl : l.dropWhile p = l) (hpre : l' <+: l) : l'.dropWhile p = l' := by
  cases l' with
  | nil => rfl
  | cons a t =>
    cases l with
    | nil =>
      have := List.prefix_nil.mp hpre
      simp at this
    | cons b u =>
      have hab : a = b := by
        obtain ⟨r, hr⟩ := hpre
        exact (List.cons.injEq .. ▸ hr).1
      by_cases h : p b
      · rw [List.dropWhile_cons_of_pos h] at hl
        have h4 := congrArg List.length hl
        have hle := (List.dropWhile_sublist (l := u) p).length_le
        simp at h4
        omega
      · rw [List.dropWhile_cons_of_neg (hab ▸ h)]

theorem trailStrip_prefix_self (l : Str) :
    (l.reverse.dropWhile isPySpace).reverse <+: l := by
  have h : l.reverse.dropWhile isPySpace <:+ l.reverse := List.dropWhile_suffix _
  have h2 := List.reverse_prefix.mpr (by simpa using h)
  simpa using h2

theorem pyStrip_idem (s : Str) : pyStrip (pyStrip s) = pyStrip s := by
  unfold pyStrip
  have hlead :
      (((s.dropWhile isPySpace).reverse.dropWhile isPySpace).reverse).dropWhile isPySpace =
      ((s.dropWhile isPySpace).reverse.dropWhile isPySpace).reverse := by
    refine dropWhile_eq_self_of_prefix ?_ (trailStrip_prefix_self (s.dropWhile isPySpace))
    exact dropWhile_dropWhile _ s
  rw [hlead, List.reverse_reverse, dropWhile_dropWhile]

theorem stripLower_idem (s : Str) :
    pyLower (pyStrip (pyLower (pyStrip s))) = pyLower (pyStrip s) := by
  rw [pyStrip_pyLower, pyStrip_idem, pyLower_idem]

/-! ## Demonstration states shared by the concrete witnesses -/

/-- Demo state: moderator `"mod"` (socket 1 held by `"alice"` here is not the
moderator socket; `moderatorWs` points at socket 1 of the moderator's own
session in other demos), with `"alice"` and `"bob"` online. -/
def stDemo : ServerState :=
  ⟨str "mod", [1, 2], [(1, str "alice"), (2, str "bob")],
   [(str "alice", 1), (str "bob", 2)], some 1, false,
   [str "alice", str "bob", str "mod"], [], []⟩

/-- Demo state with a registered username containing an uppercase letter. -/
def stUpper : ServerState :=
  ⟨str "mod", [1, 2], [(1, str "alice"), (2, str "Bob")],
   [(str "alice", 1), (str "Bob", 2)], some 1, false,
   [str "alice", str "Bob", str "mod"], [], []⟩

/-- Demo state with two persisted chat messages on each side of the clear
point used in the `/clear` witness. -/
def stClearDemo : ServerState :=
  { stDemo with messages :=
      [⟨str "alice", str "old", str "chat", 0⟩,
       ⟨str "alice", str "new", str "chat", 9⟩] }

/-- Demo send function for the broadcast witness: socket 2 fails. -/
def sendDemo : Nat → SendResult :=
  fun c => if c = 2 then .error else .ok

/-- Demo state with nobody connected and no moderator socket. -/
def stEmpty : ServerState :=
  ⟨str "mod", [], [], [], none, false, [str "mod"], [], []⟩

/-- State `stEmpty` after the moderator registered on socket 1. -/
def stReg1 : ServerState := registerUser stEmpty 1 (str "mod")

/-- State `stReg1` after a second session under the moderator name registered on
socket 2. -/
def stReg12 : ServerState := registerUser stReg1 2 (str "mod")

/-! ## C10 — the router works on the stripped, lowercased line -/

/-- C10: `handle_command` classifies and parses the whitespace-stripped,
lowercased form of the whole line, so command names match
case-insensitively (`/USERS` behaves as `/users`), and the `/whisper`
target is lowercased before the registry lookup, so a whisper addressed to
a registered username with an uppercase letter (whose lowercased spelling
is not separately registered) is answered with user-not-online. -/
theorem c10_router_case_insensitive :
    (∀ (sha256hex : List Nat → Str) (st : ServerState) (sender command : Str) (now : Nat),
      handle_command sha256hex st sender command now =
        handle_command sha256hex st sender (pyLower (pyStrip command)) now) ∧
    (∀ (sha256hex : List Nat → Str) (st : ServerState) (sender : Str) (now : Nat),
      handle_command sha256hex st sender (str "/USERS") now =
        handle_command sha256hex st sender (str "/users") now) ∧
    (∀ (sha256hex : List Nat → Str) (st : ServerState) (sender : Str) (now ws : Nat),
      dictGet st.userWebsockets (str "Bob") = some ws →
      dictGet st.userWebsockets (str "bob") = none →
      handle_command sha256hex st sender (str "/whisper Bob hello") now =
        (st, [.toCaller (.commandResponse (str "User bob is not online."))])) := by
  refine ⟨?_, ?_, ?_⟩
  · intro sha st sender command now
    unfold handle_command
    rw [stripLower_idem]
  · intro sha st sender now
    rfl
  · intro sha st sender now ws hBob hbob
    have h : handle_command sha st sender (str "/whisper Bob hello") now =
        whisperBranch st sender (str "bob") (str "hello") now := rfl
    rw [h]
    unfold whisperBranch
    rw [if_pos hbob,
      show str "User " ++ str "bob" ++ str " is not online." =
        str "User bob is not online." from by decide]

/-- Witness for C10 at a concrete state with `"Bob"` registered. -/
theorem c10_router_case_insensitive_witness :
    handle_command (fun _ => []) stUpper (str "alice") (str "/whisper Bob hello") 3 =
      (stUpper, [.toCaller (.commandResponse (str "User bob is not online."))]) :=
  c10_router_case_insensitive.2.2 (fun _ => []) stUpper (str "alice") 3 2
    (by decide) (by decide)

/-! ## C1 — whisper payloads are not forwarded byte-for-byte -/

/-- C1 (falsified by the code): the server lowercases the entire command
line, payload included, before dispatching, so a whisper payload carrying
an encrypted envelope (or a `/pubkey` key-exchange marker) is delivered to
the target with every uppercase byte rewritten, not byte-for-byte.  Here
the sent payload is an `[ENCRYPTED]`-marked envelope and the delivered
whisper content is its lowercased image, which differs from the
payload. -/
theorem c1_whisper_payload_lowercased :
    (handle_command (fun _ => []) stDemo (str "alice")
        (str "/whisper bob [ENCRYPTED]\x7b\"encrypted_key\": \"QUJD\", \"iv\": \"REVG\", \"ciphertext\": \"SElK\"\x7d") 3).2 =
      [.toUser (str "bob") (.whisper (str "alice")
          (str "[encrypted]\x7b\"encrypted_key\": \"qujd\", \"iv\": \"revg\", \"ciphertext\": \"selk\"\x7d")
          (isoStr 3)),
       .toCaller (.commandResponse (str "Whisper sent to bob"))] ∧
    str "[encrypted]\x7b\"encrypted_key\": \"qujd\", \"iv\": \"revg\", \"ciphertext\": \"selk\"\x7d" ≠
      str "[ENCRYPTED]\x7b\"encrypted_key\": \"QUJD\", \"iv\": \"REVG\", \"ciphertext\": \"SElK\"\x7d" := by
  exact ⟨by decide, by decide⟩

/-! ## C2 — `/clear` is permission-gated and deletes strictly-older history -/

/-- C2: a `/clear` from the moderator deletes exactly the persisted
chat/notification rows with timestamp strictly before the command's
timestamp (later rows survive), appends and persists the history-cleared
row, and broadcasts the history-cleared notification to all sessions; a
`/clear` from anyone else changes no state and sends a permission-denied
`CommandResponse` to the caller alone. -/
theorem c2_clear_moderator_gated (sha256hex : List Nat → Str) (st : ServerState)
    (sender : Str) (now : Nat) :
    (sender = st.moderatorUsername →
      handle_command sha256hex st sender (str "/clear") now =
        ({ st with messages :=
            (st.messages.filter fun m =>
              ¬(m.timestamp < now ∧ (m.type = str "chat" ∨ m.type = str "notification")))
            ++ [⟨sender, str "cleared the chat history.", str "clear", now⟩] },
         [.broadcast (.notification (str "*" ++ st.moderatorUsername)
            (str "cleared the chat history."))]) ∧
      (∀ m ∈ st.messages, now ≤ m.timestamp →
        m ∈ (handle_command sha256hex st sender (str "/clear") now).1.messages) ∧
      (∀ m ∈ st.messages, m.timestamp < now →
        (m.type = str "chat" ∨ m.type = str "notification") →
        m ∉ (handle_command sha256hex st sender (str "/clear") now).1.messages)) ∧
    (sender ≠ st.moderatorUsername →
      handle_command sha256hex st sender (str "/clear") now =
        (st, [.toCaller (.commandResponse
          (str "Permission denied. Only moderators can clear chat history."))])) := by
  have hRed : handle_command sha256hex st sender (str "/clear") now =
      (if sender = st.moderatorUsername then
        ({ st with messages :=
            (st.messages.filter fun m =>
              ¬(m.timestamp < now ∧ (m.type = str "chat" ∨ m.type = str "notification")))
            ++ [⟨sender, str "cleared the chat history.", str "clear", now⟩] },
         [.broadcast (.notification (str "*" ++ st.moderatorUsername)
            (str "cleared the chat history."))])
      else
        (st, [.toCaller (.commandResponse
          (str "Permission denied. Only moderators can clear chat history."))])) := rfl
  constructor
  · intro h
    have hEq := hRed.trans (if_pos h)
    refine ⟨hEq, ?_, ?_⟩
    · intro m hm hts
      rw [hEq]
      refine List.mem_append_left _ ?_
      rw [List.mem_filter]
      refine ⟨hm, ?_⟩
      simp only [decide_eq_true_eq]
      intro hcon
      omega
    · intro m hm hts htype hmem
      rw [hEq] at hmem
      rcases List.mem_append.mp hmem with hIn | hIn
      · have := (List.mem_filter.mp hIn).2
        simp only [decide_eq_true_eq] at this
        exact this ⟨hts, htype⟩
      · have hm2 : m = ⟨sender, str "cleared the chat history.", str "clear", now⟩ := by
          simpa using hIn
        have : m.type = str "clear" := by rw [hm2]
        rcases htype with h1 | h1 <;> rw [h1] at this <;> exact absurd this (by decide)
  · intro h
    exact hRed.trans (if_neg h)

/-- Witness for C2: at a concrete state, the moderator's `/clear` deletes
the pre-clear row and keeps the later one, and a non-moderator's `/clear`
changes nothing. -/
theorem c2_clear_moderator_gated_witness :
    (handle_command (fun _ => []) stClearDemo (str "mod") (str "/clear") 5 =
      ({ stClearDemo with messages :=
          (stClearDemo.messages.filter fun m =>
            ¬(m.timestamp < 5 ∧ (m.type = str "chat" ∨ m.type = str "notification")))
          ++ [⟨str "mod", str "cleared the chat history.", str "clear", 5⟩] },
       [.broadcast (.notification (str "*" ++ stClearDemo.moderatorUsername)
          (str "cleared the chat history."))])) ∧
    (handle_command (fun _ => []) stClearDemo (str "alice") (str "/clear") 5 =
      (stClearDemo, [.toCaller (.commandResponse
        (str "Permission denied. Only moderators can clear chat history."))])) :=
  ⟨((c2_clear_moderator_gated (fun _ => []) stClearDemo (str "mod") 5).1 (by decide)).1,
   (c2_clear_moderator_gated (fun _ => []) stClearDemo (str "alice") 5).2 (by decide)⟩

/-! ## C8 — broadcast tolerates individual send failures -/

/-- C8: a `notify_all` fan-out to `N` live sessions in which exactly one
send fails still attempts every send (the gather returns one result per
client rather than raising), delivers to each of the other `N − 1`
sessions, and the delivered set has exactly `N − 1` members. -/
theorem c8_broadcast_fault_isolation (clients : List Nat) (send : Nat → SendResult)
    (bad : Nat) (hmem : bad ∈ clients) (hnodup : clients.Nodup)
    (hbad : send bad = .error) (hok : ∀ c ∈ clients, c ≠ bad → send c = .ok) :
    (notify_all clients send).length = clients.length ∧
    (∀ c ∈ clients, c ≠ bad → c ∈ deliveredTo clients send) ∧
    (deliveredTo clients send).length = clients.length - 1 := by
  refine ⟨by simp [notify_all], ?_, ?_⟩
  · intro c hc hne
    unfold deliveredTo
    rw [List.mem_filter]
    exact ⟨hc, by rw [hok c hc hne]; rfl⟩
  · unfold deliveredTo
    have hcong : clients.filter (fun c => sendOk (send c)) =
        clients.filter (fun c => c != bad) := by
      apply List.filter_congr
      intro c hc
      by_cases hne : c = bad
      · subst hne
        rw [hbad]
        simp [sendOk]
      · rw [hok c hc hne]
        simp [sendOk, hne]
    rw [hcong, ← List.Nodup.erase_eq_filter hnodup, List.length_erase_of_mem hmem]

/-- Witness for C8 with three clients of which socket 2 fails. -/
theorem c8_broadcast_fault_isolation_witness :
    (notify_all [1, 2, 3] sendDemo).length = ([1, 2, 3] : List Nat).length ∧
    (∀ c ∈ [1, 2, 3], c ≠ 2 → c ∈ deliveredTo [1, 2, 3] sendDemo) ∧
    (deliveredTo [1, 2, 3] sendDemo).length = ([1, 2, 3] : List Nat).length - 1 :=
  c8_broadcast_fault_isolation [1, 2, 3] sendDemo 2 (by decide) (by decide)
    (by rfl) (by decide)

/-! ## C9 — at most one moderator session, claim and release -/

/-- C9: across any sequence of registrations and disconnections at most one
session holds the moderator role at any instant; the first session to
authenticate under the moderator name while the role is free claims it;
later sessions (under any name) leave the holder unchanged; and the role
is released — with the shutdown event raised — exactly when the holding
socket closes, while other sockets closing leave the holder in place. -/
theorem c9_at_most_one_moderator (st0 : ServerState) (ops : List RegOp)
    (ws w w1 w2 : Nat) (username : Str) :
    (holdsModerator (applyOps st0 ops) w1 → holdsModerator (applyOps st0 ops) w2 → w1 = w2) ∧
    (username = st0.moderatorUsername → st0.moderatorWs = none →
      (registerUser st0 ws username).moderatorWs = some ws) ∧
    (st0.moderatorWs = some w → (registerUser st0 ws username).moderatorWs = some w) ∧
    (st0.moderatorWs = some ws → (unregisterUser st0 ws).moderatorWs = none ∧
      (unregisterUser st0 ws).moderatorDisconnectEvent = true) ∧
    (st0.moderatorWs = some w → w ≠ ws → (unregisterUser st0 ws).moderatorWs = some w) := by
  have hureg : ∀ (st : ServerState),
      (unregisterUser st ws).moderatorWs =
        (if st.moderatorWs = some ws then none else st.moderatorWs) ∧
      (unregisterUser st ws).moderatorDisconnectEvent =
        (if st.moderatorWs = some ws then true else st.moderatorDisconnectEvent) := by
    intro st
    unfold unregisterUser
    cases hdg : dictGet { st with clients := st.clients.filter (fun c => c ≠ ws) }.onlineUsers ws with
    | none =>
      by_cases h : st.moderatorWs = some ws
      · simp [hdg, h]
      · simp [hdg, h]
    | some username =>
      by_cases h : st.moderatorWs = some ws
      · simp [hdg, h]
      · simp [hdg, h]
  refine ⟨?_, ?_, ?_, ?_, ?_⟩
  · intro h1 h2
    exact Option.some.inj (h1.symm.trans h2)
  · intro h1 h2
    unfold registerUser
    exact if_pos ⟨h1, h2⟩
  · intro h1
    unfold registerUser
    dsimp only
    rw [if_neg (by simp [h1])]
    exact h1
  · intro h1
    obtain ⟨e1, e2⟩ := hureg st0
    rw [e1, e2, if_pos h1, if_pos h1]
    exact ⟨rfl, rfl⟩
  · intro h1 h2
    obtain ⟨e1, _⟩ := hureg st0
    rw [e1, if_neg (by rw [h1]; simp [h2])]
    exact h1

/-- Witness for C9: concrete claim, non-claim, release and preservation. -/
theorem c9_at_most_one_moderator_witness :
    (1 : Nat) = 1 ∧
    (registerUser stEmpty 1 (str "mod")).moderatorWs = some 1 ∧
    (registerUser stReg1 2 (str "mod")).moderatorWs = some 1 ∧
    ((unregisterUser stReg1 1).moderatorWs = none ∧
      (unregisterUser stReg1 1).moderatorDisconnectEvent = true) ∧
    (unregisterUser stReg12 2).moderatorWs = some 1 :=
  ⟨(c9_at_most_one_moderator stEmpty [.reg 1 (str "mod")] 1 1 1 1 (str "mod")).1
      (by decide) (by decide),
   (c9_at_most_one_moderator stEmpty [] 1 1 1 1 (str "mod")).2.1 (by decide) (by decide),
   (c9_at_most_one_moderator stReg1 [] 2 1 1 1 (str "mod")).2.2.1 (by decide),
   (c9_at_most_one_moderator stReg1 [] 1 1 1 1 (str "mod")).2.2.2.1 (by decide),
   (c9_at_most_one_moderator stReg12 [] 2 1 1 1 (str "mod")).2.2.2.2 (by decide) (by decide)⟩

/-! ## Big base64 payloads for the size-limit witnesses

A quad `"aaaa"` decodes to the three bytes `[105, 166, 154]`; a payload of
`n` such quads plus a padded tail decodes to `3n` bytes plus the tail's
bytes, which lets the 10 MiB witnesses be discharged by induction instead
of by evaluating a fourteen-million-character string. -/

/-- The decoded bytes of `n` copies of the quad `"aaaa"`. -/
def aBlocks (n : Nat) : List Nat := (List.replicate n [105, 166, 154]).flatten

theorem aBlocks_succ (n : Nat) : aBlocks (n + 1) = 105 :: 166 :: 154 :: aBlocks n := rfl

theorem aBlocks_length (n : Nat) : (aBlocks n).length = 3 * n := by
  induction n with
  | zero => rfl
  | succ k ih =>
    rw [aBlocks_succ]
    simp only [List.length_cons, ih]
    omega

theorem decodeQuads_replicate (n : Nat) (tail : Str) :
    decodeQuads (List.replicate (4 * n) 'a' ++ tail) =
      (decodeQuads tail).map (fun bs => aBlocks n ++ bs) := by
  induction n with
  | zero =>
    simp only [Nat.mul_zero, List.replicate_zero, List.nil_append]
    cases decodeQuads tail <;> rfl
  | succ k ih =>
    have h4 : 4 * (k + 1) = (((4 * k).succ).succ.succ).succ := by omega
    rw [h4, List.replicate_succ, List.replicate_succ, List.replicate_succ,
      List.replicate_succ]
    show decodeQuads ('a' :: 'a' :: 'a' :: 'a' :: (List.replicate (4 * k) 'a' ++ tail)) = _
    rw [decodeQuads, ih]
    cases decodeQuads tail with
    | none => rfl
    | some bs => rfl

theorem b64decode_replicate (n : Nat) (tail : Str)
    (htail : tail.filter isB64Sym = tail) :
    b64decode (List.replicate (4 * n) 'a' ++ tail) =
      (decodeQuads tail).map (fun bs => aBlocks n ++ bs) := by
  unfold b64decode
  rw [List.filter_append, List.filter_replicate, if_pos (by decide), htail]
  exact decodeQuads_replicate n tail

/-- A base64 text decoding to exactly `3n + 1` bytes. -/
def bigB64a (n : Nat) : Str := List.replicate (4 * n) 'a' ++ str "aa=="

/-- A base64 text decoding to exactly `3n + 2` bytes. -/
def bigB64b (n : Nat) : Str := List.replicate (4 * n) 'a' ++ str "aaa="

theorem b64decode_bigB64a (n : Nat) :
    b64decode (bigB64a n) = some (aBlocks n ++ [105]) := by
  unfold bigB64a
  rw [b64decode_replicate n (str "aa==") (by decide)]
  rfl

theorem b64decode_bigB64b (n : Nat) :
    b64decode (bigB64b n) = some (aBlocks n ++ [105, 166]) := by
  unfold bigB64b
  rw [b64decode_replicate n (str "aaa=") (by decide)]
  rfl

/-- Splitting `"f.bin;" ++ rest` at the first semicolon. -/
theorem splitOnce_fbin (rest : Str) :
    splitOnceChar ';' (str "f.bin;" ++ rest) = some (str "f.bin", rest) := by
  show splitOnceChar ';' ('f' :: '.' :: 'b' :: 'i' :: 'n' :: ';' :: rest) = _
  rw [splitOnceChar, if_neg (by decide), splitOnceChar, if_neg (by decide),
    splitOnceChar, if_neg (by decide), splitOnceChar, if_neg (by decide),
    splitOnceChar, if_neg (by decide), splitOnceChar, if_pos (by decide)]
  rfl

/-! ## C5 — `/file` validation order -/

/-- C5 counterexample: a `/file` whose payload is malformed (no semicolon)
and whose target is offline is answered with the user-offline response, not
the `FormatError` response the claimed order (shape first) requires —
the code checks the target's registration before any payload
validation. -/
theorem c5_validation_order_counterexample :
    (handle_command (fun _ => []) stDemo (str "alice") (str "/file nobody garbage") 3).2 =
      [.toCaller (.commandResponse (str "User nobody is not online."))] ∧
    [Out.toCaller (.commandResponse (str "User nobody is not online."))] ≠
      [Out.toCaller (.commandResponse (str "Error: Invalid file format"))] :=
  ⟨by decide, by decide⟩

/-- C5 (amended): the `/file` handler fails fast in the order
target-not-registered, then malformed `filename;payload` shape, then
undecodable payload, then decoded size over 10 MiB; each failure is
reported as a caller-only `CommandResponse` and mutates nothing (the
state is returned unchanged). -/
theorem c5_file_validation_order (sha256hex : List Nat → Str) (st : ServerState)
    (sender target fileData : Str) (now : Nat) :
    (dictGet st.userWebsockets target = none →
      fileBranch sha256hex st sender target fileData now =
        (st, [.toCaller (.commandResponse
          (str "User " ++ target ++ str " is not online."))])) ∧
    (∀ ws, dictGet st.userWebsockets target = some ws →
      splitOnceChar ';' fileData = none →
      fileBranch sha256hex st sender target fileData now =
        (st, [.toCaller (.commandResponse (str "Error: Invalid file format"))])) ∧
    (∀ ws filename b64, dictGet st.userWebsockets target = some ws →
      splitOnceChar ';' fileData = some (filename, b64) →
      b64decode b64 = none →
      fileBranch sha256hex st sender target fileData now =
        (st, [.toCaller (.commandResponse (str "Error: Invalid base64 data"))])) ∧
    (∀ ws filename b64 bytes, dictGet st.userWebsockets target = some ws →
      splitOnceChar ';' fileData = some (filename, b64) →
      b64decode b64 = some bytes → bytes.length > MAX_FILE_SIZE →
      fileBranch sha256hex st sender target fileData now =
        (st, [.toCaller (.commandResponse
          (str "File too large. Maximum size is 10MB."))])) := by
  refine ⟨?_, ?_, ?_, ?_⟩
  · intro h
    unfold fileBranch
    rw [if_pos h]
  · intro ws hws hsplit
    unfold fileBranch
    rw [if_neg (by simp [hws]), pySplit1, hsplit]
  · intro ws filename b64 hws hsplit hdec
    unfold fileBranch
    rw [if_neg (by simp [hws]), pySplit1, hsplit]
    show (match b64decode b64 with | none => _ | some decodedData => _) = _
    rw [hdec]
  · intro ws filename b64 bytes hws hsplit hdec hsize
    unfold fileBranch
    rw [if_neg (by simp [hws]), pySplit1, hsplit]
    show (match b64decode b64 with | none => _ | some decodedData => _) = _
    rw [hdec]
    show (if bytes.length > MAX_FILE_SIZE then _ else _) = _
    rw [if_pos hsize]

/-- Witness for C5: each amended validation step at a concrete input,
including an over-limit payload of 10 MiB + 1 bytes built from `"aaaa"`
quads. -/
theorem c5_file_validation_order_witness :
    (fileBranch (fun _ => []) stDemo (str "alice") (str "nobody") (str "garbage") 3 =
      (stDemo, [.toCaller (.commandResponse
        (str "User " ++ str "nobody" ++ str " is not online."))])) ∧
    (fileBranch (fun _ => []) stDemo (str "alice") (str "bob") (str "garbage") 3 =
      (stDemo, [.toCaller (.commandResponse (str "Error: Invalid file format"))])) ∧
    (fileBranch (fun _ => []) stDemo (str "alice") (str "bob") (str "f.txt;a") 3 =
      (stDemo, [.toCaller (.commandResponse (str "Error: Invalid base64 data"))])) ∧
    (fileBranch (fun _ => []) stDemo (str "alice") (str "bob")
        (str "f.bin;" ++ bigB64b 3495253) 3 =
      (stDemo, [.toCaller (.commandResponse
        (str "File too large. Maximum size is 10MB."))])) :=
  ⟨(c5_file_validation_order (fun _ => []) stDemo (str "alice") (str "nobody")
      (str "garbage") 3).1 (by decide),
   (c5_file_validation_order (fun _ => []) stDemo (str "alice") (str "bob")
      (str "garbage") 3).2.1 2 (by decide) (by decide),
   (c5_file_validation_order (fun _ => []) stDemo (str "alice") (str "bob")
      (str "f.txt;a") 3).2.2.1 2 (str "f.txt") (str "a") (by decide) (by decide)
      (by decide),
   (c5_file_validation_order (fun _ => []) stDemo (str "alice") (str "bob")
      (str "f.bin;" ++ bigB64b 3495253) 3).2.2.2 2 (str "f.bin") (bigB64b 3495253)
      (aBlocks 3495253 ++ [105, 166]) (by decide) (splitOnce_fbin _)
      (b64decode_bigB64b 3495253)
      (by rw [List.length_append, aBlocks_length]; norm_num [MAX_FILE_SIZE])⟩

/-! ## C6 — the 10 MiB boundary -/

/-- C6: with the earlier validation steps passing, a `/file` whose decoded
payload is exactly 10 MiB is accepted (record persisted, `File` event to
the target, confirmation to the sender), and one whose decoded payload is
one byte over the limit is rejected with the size-limit response, leaving
the state unchanged and delivering no `File` event to anyone. -/
theorem c6_file_size_boundary (sha256hex : List Nat → Str) :
    (∀ (st : ServerState) (sender target fileData filename b64 : Str)
        (bytes : List Nat) (now ws : Nat),
      dictGet st.userWebsockets target = some ws →
      splitOnceChar ';' fileData = some (filename, b64) →
      b64decode b64 = some bytes →
      sender ∈ st.dbUsers → target ∈ st.dbUsers →
      bytes.length = MAX_FILE_SIZE →
      fileBranch sha256hex st sender target fileData now =
        ({ st with fileTransfers := st.fileTransfers ++
            [⟨filename, bytes.length, sender, target, str "completed", sha256hex bytes⟩] },
         [.toUser target (.fileEvent sender filename bytes.length b64
            (sha256hex bytes) (isoStr now)),
          .toCaller (.commandResponse
            (str "File '" ++ filename ++ str "' (" ++ natToStr bytes.length ++
             str " bytes) sent to " ++ target))])) ∧
    (∀ (st : ServerState) (sender target fileData filename b64 : Str)
        (bytes : List Nat) (now ws : Nat),
      dictGet st.userWebsockets target = some ws →
      splitOnceChar ';' fileData = some (filename, b64) →
      b64decode b64 = some bytes →
      bytes.length = MAX_FILE_SIZE + 1 →
      fileBranch sha256hex st sender target fileData now =
        (st, [.toCaller (.commandResponse
          (str "File too large. Maximum size is 10MB."))]) ∧
      (∀ u e, Out.toUser u e ∉ (fileBranch sha256hex st sender target fileData now).2)) := by
  constructor
  · intro st sender target fileData filename b64 bytes now ws hws hsplit hdec hs ht hlen
    unfold fileBranch
    rw [if_neg (by simp [hws]), pySplit1, hsplit]
    show (match b64decode b64 with | none => _ | some decodedData => _) = _
    rw [hdec]
    show (if bytes.length > MAX_FILE_SIZE then _
          else if sender ∈ st.dbUsers ∧ target ∈ st.dbUsers then _ else _) = _
    rw [if_neg (by omega), if_pos ⟨hs, ht⟩]
  · intro st sender target fileData filename b64 bytes now ws hws hsplit hdec hlen
    have heq : fileBranch sha256hex st sender target fileData now =
        (st, [.toCaller (.commandResponse
          (str "File too large. Maximum size is 10MB."))]) := by
      unfold fileBranch
      rw [if_neg (by simp [hws]), pySplit1, hsplit]
      show (match b64decode b64 with | none => _ | some decodedData => _) = _
      rw [hdec]
      show (if bytes.length > MAX_FILE_SIZE then _ else _) = _
      rw [if_pos (by omega)]
    refine ⟨heq, ?_⟩
    intro u e
    rw [heq]
    simp

/-- Witness for C6: a payload of exactly 10485760 decoded bytes is
accepted and one of 10485761 bytes is rejected. -/
theorem c6_file_size_boundary_witness :
    (fileBranch (fun _ => str "h") stDemo (str "alice") (str "bob")
        (str "f.bin;" ++ bigB64a 3495253) 3 =
      ({ stDemo with fileTransfers := stDemo.fileTransfers ++
          [⟨str "f.bin", (aBlocks 3495253 ++ [105]).length, str "alice", str "bob",
            str "completed", str "h"⟩] },
       [.toUser (str "bob") (.fileEvent (str "alice") (str "f.bin")
          (aBlocks 3495253 ++ [105]).length (bigB64a 3495253) (str "h") (isoStr 3)),
        .toCaller (.commandResponse
          (str "File '" ++ str "f.bin" ++ str "' (" ++
           natToStr (aBlocks 3495253 ++ [105]).length ++
           str " bytes) sent to " ++ str "bob"))])) ∧
    (fileBranch (fun _ => str "h") stDemo (str "alice") (str "bob")
        (str "f.bin;" ++ bigB64b 3495253) 3 =
      (stDemo, [.toCaller (.commandResponse
        (str "File too large. Maximum size is 10MB."))])) :=
  ⟨(c6_file_size_boundary (fun _ => str "h")).1 stDemo (str "alice") (str "bob")
      (str "f.bin;" ++ bigB64a 3495253) (str "f.bin") (bigB64a 3495253)
      (aBlocks 3495253 ++ [105]) 3 2 (by decide) (splitOnce_fbin _)
      (b64decode_bigB64a 3495253) (by decide) (by decide)
      (by rw [List.length_append, aBlocks_length]; norm_num [MAX_FILE_SIZE]),
   ((c6_file_size_boundary (fun _ => str "h")).2 stDemo (str "alice") (str "bob")
      (str "f.bin;" ++ bigB64b 3495253) (str "f.bin") (bigB64b 3495253)
      (aBlocks 3495253 ++ [105, 166]) 3 2 (by decide) (splitOnce_fbin _)
      (b64decode_bigB64b 3495253)
      (by rw [List.length_append, aBlocks_length]; norm_num [MAX_FILE_SIZE])).1⟩

/-! ## C7 — hash integrity end to end -/

/-- C7: on a successful `/file`, the hash carried in the delivered `File`
event and stored in the persisted record is the digest of the decoded
payload bytes, and recomputing the digest from the delivered payload
(`data` is the base64 text whose decode is exactly those bytes) yields the
same value — for every digest function, hence for SHA-256.  On the
receiving side, when the recomputed digest differs from the advertised
hash the file is never kept silently: the saved-without-warning outcome is
impossible, and (when the user chose to save) the file is kept exactly
when the user explicitly confirms at the warning prompt, otherwise it is
dropped with notice. -/
theorem c7_hash_integrity (sha256hex : List Nat → Str) :
    (∀ (st : ServerState) (sender target fileData filename b64 : Str)
        (bytes : List Nat) (now ws : Nat),
      dictGet st.userWebsockets target = some ws →
      splitOnceChar ';' fileData = some (filename, b64) →
      b64decode b64 = some bytes →
      sender ∈ st.dbUsers → target ∈ st.dbUsers →
      ¬bytes.length > MAX_FILE_SIZE →
      Out.toUser target (.fileEvent sender filename bytes.length b64
          (sha256hex bytes) (isoStr now))
        ∈ (fileBranch sha256hex st sender target fileData now).2 ∧
      (fileBranch sha256hex st sender target fileData now).1.fileTransfers =
        st.fileTransfers ++
          [⟨filename, bytes.length, sender, target, str "completed", sha256hex bytes⟩] ∧
      (b64decode b64).map sha256hex = some (sha256hex bytes)) ∧
    (∀ (fileHash data : Str) (decoded : List Nat) (savePrompt verifyPrompt : Str),
      b64decode data = some decoded →
      sha256hex decoded ≠ fileHash →
      clientFileReceive sha256hex fileHash data savePrompt verifyPrompt ≠
        .saved decoded ∧
      (pyLower savePrompt = str "y" →
        clientFileReceive sha256hex fileHash data savePrompt verifyPrompt =
          (if pyLower verifyPrompt = str "y" then .savedAfterWarning decoded
           else .notSaved))) := by
  constructor
  · intro st sender target fileData filename b64 bytes now ws hws hsplit hdec hs ht hlen
    have heq : fileBranch sha256hex st sender target fileData now =
        ({ st with fileTransfers := st.fileTransfers ++
            [⟨filename, bytes.length, sender, target, str "completed", sha256hex bytes⟩] },
         [.toUser target (.fileEvent sender filename bytes.length b64
            (sha256hex bytes) (isoStr now)),
          .toCaller (.commandResponse
            (str "File '" ++ filename ++ str "' (" ++ natToStr bytes.length ++
             str " bytes) sent to " ++ target))]) := by
      unfold fileBranch
      rw [if_neg (by simp [hws]), pySplit1, hsplit]
      show (match b64decode b64 with | none => _ | some decodedData => _) = _
      rw [hdec]
      show (if bytes.length > MAX_FILE_SIZE then _
            else if sender ∈ st.dbUsers ∧ target ∈ st.dbUsers then _ else _) = _
      rw [if_neg hlen, if_pos ⟨hs, ht⟩]
    refine ⟨?_, ?_, ?_⟩
    · rw [heq]
      simp
    · rw [heq]
    · rw [hdec]
      rfl
  · intro fileHash data decoded savePrompt verifyPrompt hdec hne
    have hbody : clientFileReceive sha256hex fileHash data savePrompt verifyPrompt =
        if pyLower savePrompt = str "y" then
          (if sha256hex decoded ≠ fileHash then
            (if pyLower verifyPrompt ≠ str "y" then FileOutcome.notSaved
             else .savedAfterWarning decoded)
          else .saved decoded)
        else .notSaved := by
      unfold clientFileReceive
      rw [hdec]
    rw [hbody]
    by_cases hsave : pyLower savePrompt = str "y"
    · rw [if_pos hsave, if_pos hne]
      constructor
      · by_cases hv : pyLower verifyPrompt = str "y"
        · rw [if_neg (fun hx => hx hv)]
          simp
        · rw [if_pos hv]
          simp
      · intro _
        by_cases hv : pyLower verifyPrompt = str "y"
        · rw [if_neg (fun hx => hx hv), if_pos hv]
        · rw [if_pos hv, if_neg hv]
    · rw [if_neg hsave]
      exact ⟨by simp, fun h => absurd h hsave⟩

/-- Witness for C7: a concrete accepted transfer, and a concrete receive
with a mismatching advertised hash that the user declines to keep. -/
theorem c7_hash_integrity_witness :
    (Out.toUser (str "bob") (.fileEvent (str "alice") (str "f.txt")
        ([105, 166, 154] : List Nat).length (str "aaaa")
        ((fun _ => str "h") ([105, 166, 154] : List Nat)) (isoStr 3))
      ∈ (fileBranch (fun _ => str "h") stDemo (str "alice") (str "bob")
          (str "f.txt;aaaa") 3).2 ∧
     (fileBranch (fun _ => str "h") stDemo (str "alice") (str "bob")
         (str "f.txt;aaaa") 3).1.fileTransfers =
       stDemo.fileTransfers ++
         [⟨str "f.txt", ([105, 166, 154] : List Nat).length, str "alice", str "bob",
           str "completed", (fun _ => str "h") ([105, 166, 154] : List Nat)⟩] ∧
     (b64decode (str "aaaa")).map (fun _ => str "h") =
       some ((fun _ => str "h") ([105, 166, 154] : List Nat))) ∧
    (clientFileReceive (fun _ => str "h") (str "x") (str "aaaa") (str "y") (str "n") ≠
        .saved [105, 166, 154] ∧
      (pyLower (str "y") = str "y" →
        clientFileReceive (fun _ => str "h") (str "x") (str "aaaa") (str "y") (str "n") =
          (if pyLower (str "n") = str "y" then .savedAfterWarning [105, 166, 154]
           else .notSaved))) :=
  ⟨(c7_hash_integrity (fun _ => str "h")).1 stDemo (str "alice") (str "bob")
      (str "f.txt;aaaa") (str "f.txt") (str "aaaa") [105, 166, 154] 3 2
      (by decide) (by decide) (by decide) (by decide) (by decide) (by decide),
   (c7_hash_integrity (fun _ => str "h")).2 (str "x") (str "aaaa") [105, 166, 154]
      (str "y") (str "n") (by decide) (by decide)⟩

/-! ## AES-CFB (`modes.CFB` of the `cryptography` package)

The block cipher itself (AES-256) is an external primitive; the CFB
theorems take its forward function as a parameter `E` constrained only by
the block-cipher contract (a 16-byte block in, a 16-byte block out), so
they hold in particular for the real AES. -/

/-- A block cipher forward function: key, 16-byte register in, 16-byte
keystream block out. -/
abbrev AesBlock := List Nat → List Nat → List Nat

/-- Bytewise xor of two streams, truncated to the shorter one. -/
def zipXor (xs ys : List Nat) : List Nat := List.zipWith (fun a b => a ^^^ b) xs ys

/-- CFB encryption, with the plaintext length as (always sufficient)
structural fuel: each step consumes at least one byte. -/
def cfbEncryptAux (E : AesBlock) (key : List Nat) : Nat → List Nat → List Nat → List Nat
  | _, _, [] => []
  | 0, _, _ :: _ => []
  | f + 1, reg, p :: ps =>
    zipXor ((p :: ps).take 16) (E key reg) ++
      cfbEncryptAux E key f (zipXor ((p :: ps).take 16) (E key reg)) ((p :: ps).drop 16)

/-- CFB (full-block feedback) encryption: each 16-byte segment of the
plaintext is xored with `E key reg`, and the produced ciphertext segment
becomes the next register; a final partial segment just truncates the
keystream. -/
def cfbEncrypt (E : AesBlock) (key reg ps : List Nat) : List Nat :=
  cfbEncryptAux E key ps.length reg ps

/-- CFB decryption with structural fuel. -/
def cfbDecryptAux (E : AesBlock) (key : List Nat) : Nat → List Nat → List Nat → List Nat
  | _, _, [] => []
  | 0, _, _ :: _ => []
  | f + 1, reg, c :: cs =>
    zipXor ((c :: cs).take 16) (E key reg) ++
      cfbDecryptAux E key f ((c :: cs).take 16) ((c :: cs).drop 16)

/-- CFB decryption: the mirror image, feeding the received ciphertext
segment back as the next register. -/
def cfbDecrypt (E : AesBlock) (key reg cs : List Nat) : List Nat :=
  cfbDecryptAux E key cs.length reg cs

theorem cfbEncryptAux_fuel (E : AesBlock) (key : List Nat) :
    ∀ (n f1 f2 : Nat) (ps reg : List Nat), ps.length = n → n ≤ f1 → n ≤ f2 →
      cfbEncryptAux E key f1 reg ps = cfbEncryptAux E key f2 reg ps := by
  intro n
  induction n using Nat.strong_induction_on with
  | _ n ih =>
    intro f1 f2 ps reg hn h1 h2
    cases ps with
    | nil => cases f1 <;> cases f2 <;> rfl
    | cons p tail =>
      have hpos : 0 < n := by
        subst hn
        simp
      cases f1 with
      | zero => omega
      | succ g1 =>
        cases f2 with
        | zero => omega
        | succ g2 =>
          show zipXor _ _ ++ cfbEncryptAux E key g1 _ ((p :: tail).drop 16) =
            zipXor _ _ ++ cfbEncryptAux E key g2 _ ((p :: tail).drop 16)
          rw [ih ((p :: tail).drop 16).length
            (by rw [List.length_drop]; omega)
            g1 g2 ((p :: tail).drop 16) _ rfl
            (by rw [List.length_drop]; omega) (by rw [List.length_drop]; omega)]

theorem cfbDecryptAux_fuel (E : AesBlock) (key : List Nat) :
    ∀ (n f1 f2 : Nat) (cs reg : List Nat), cs.length = n → n ≤ f1 → n ≤ f2 →
      cfbDecryptAux E key f1 reg cs = cfbDecryptAux E key f2 reg cs := by
  intro n
  induction n using Nat.strong_induction_on with
  | _ n ih =>
    intro f1 f2 cs reg hn h1 h2
    cases cs with
    | nil => cases f1 <;> cases f2 <;> rfl
    | cons c tail =>
      have hpos : 0 < n := by
        subst hn
        simp
      cases f1 with
      | zero => omega
      | succ g1 =>
        cases f2 with
        | zero => omega
        | succ g2 =>
          show zipXor _ _ ++ cfbDecryptAux E key g1 _ ((c :: tail).drop 16) =
            zipXor _ _ ++ cfbDecryptAux E key g2 _ ((c :: tail).drop 16)
          rw [ih ((c :: tail).drop 16).length
            (by rw [List.length_drop]; omega)
            g1 g2 ((c :: tail).drop 16) _ rfl
            (by rw [List.length_drop]; omega) (by rw [List.length_drop]; omega)]

/-- The recursion equation of `cfbEncrypt` as written in the mode's
specification. -/
theorem cfbEncrypt_eq (E : AesBlock) (key reg ps : List Nat) :
    cfbEncrypt E key reg ps =
      if ps = [] then []
      else zipXor (ps.take 16) (E key reg) ++
        cfbEncrypt E key (zipXor (ps.take 16) (E key reg)) (ps.drop 16) := by
  cases ps with
  | nil => rfl
  | cons p tail =>
    rw [if_neg (by simp)]
    show cfbEncryptAux E key ((p :: tail).length) reg (p :: tail) = _
    have hlen : (p :: tail).length = tail.length + 1 := rfl
    rw [hlen]
    show zipXor _ _ ++ cfbEncryptAux E key tail.length _ ((p :: tail).drop 16) = _
    rw [cfbEncryptAux_fuel E key ((p :: tail).drop 16).length tail.length
      ((p :: tail).drop 16).length ((p :: tail).drop 16)
      (zipXor ((p :: tail).take 16) (E key reg)) rfl
      (by rw [List.length_drop]; simp only [List.length_cons]; omega)
      (Nat.le_refl _)]
    rfl

/-- The recursion equation of `cfbDecrypt`. -/
theorem cfbDecrypt_eq (E : AesBlock) (key reg cs : List Nat) :
    cfbDecrypt E key reg cs =
      if cs = [] then []
      else zipXor (cs.take 16) (E key reg) ++
        cfbDecrypt E key (cs.take 16) (cs.drop 16) := by
  cases cs with
  | nil => rfl
  | cons c tail =>
    rw [if_neg (by simp)]
    show cfbDecryptAux E key ((c :: tail).length) reg (c :: tail) = _
    have hlen : (c :: tail).length = tail.length + 1 := rfl
    rw [hlen]
    show zipXor _ _ ++ cfbDecryptAux E key tail.length _ ((c :: tail).drop 16) = _
    rw [cfbDecryptAux_fuel E key ((c :: tail).drop 16).length tail.length
      ((c :: tail).drop 16).length ((c :: tail).drop 16)
      ((c :: tail).take 16) rfl
      (by rw [List.length_drop]; simp only [List.length_cons]; omega)
      (Nat.le_refl _)]
    rfl

theorem zipXor_length (xs ys : List Nat) :
    (zipXor xs ys).length = min xs.length ys.length := by
  unfold zipXor
  exact List.length_zipWith ..

theorem zipXor_zipXor (a : List Nat) :
    ∀ b : List Nat, a.length ≤ b.length → zipXor (zipXor a b) b = a := by
  induction a with
  | nil => intro b _; rfl
  | cons x xs ih =>
    intro b hb
    cases b with
    | nil => simp at hb
    | cons y ys =>
      show (x ^^^ y ^^^ y) :: zipXor (zipXor xs ys) ys = x :: xs
      rw [Nat.xor_cancel_right, ih ys (by simpa using hb)]

theorem cfbEncrypt_nil (E : AesBlock) (key reg : List Nat) :
    cfbEncrypt E key reg [] = [] := rfl

theorem cfbDecrypt_nil (E : AesBlock) (key reg : List Nat) :
    cfbDecrypt E key reg [] = [] := rfl

theorem cfbEncrypt_short (E : AesBlock) (key reg ps : List Nat)
    (hlen : ps.length ≤ 16) :
    cfbEncrypt E key reg ps = zipXor ps (E key reg) := by
  by_cases hps : ps = []
  · subst hps
    rw [cfbEncrypt_nil]
    rfl
  · rw [cfbEncrypt_eq, if_neg hps]
    have hdrop : ps.drop 16 = [] := List.drop_eq_nil_of_le hlen
    simp only [hdrop, cfbEncrypt_nil, List.append_nil]
    rw [List.take_of_length_le hlen]

theorem cfbDecrypt_short (E : AesBlock) (key reg cs : List Nat)
    (hlen : cs.length ≤ 16) :
    cfbDecrypt E key reg cs = zipXor cs (E key reg) := by
  by_cases hcs : cs = []
  · subst hcs
    rw [cfbDecrypt_nil]
    rfl
  · rw [cfbDecrypt_eq, if_neg hcs]
    have hdrop : cs.drop 16 = [] := List.drop_eq_nil_of_le hlen
    simp only [hdrop, cfbDecrypt_nil, List.append_nil]
    rw [List.take_of_length_le hlen]

theorem cfb_roundtrip (E : AesBlock) (key : List Nat)
    (hE : ∀ k b, (E k b).length = 16) :
    ∀ (n : Nat) (ps reg : List Nat), ps.length = n →
      cfbDecrypt E key reg (cfbEncrypt E key reg ps) = ps := by
  intro n
  induction n using Nat.strong_induction_on with
  | _ n ih =>
    intro ps reg hn
    by_cases hps : ps = []
    · subst hps
      rw [cfbEncrypt_nil, cfbDecrypt_nil]
    · have hpos : 0 < ps.length := List.length_pos.mpr hps
      by_cases hle : ps.length ≤ 16
      · rw [cfbEncrypt_short E key reg ps hle,
          cfbDecrypt_short E key reg _ (by rw [zipXor_length, hE]; omega)]
        exact zipXor_zipXor ps (E key reg) (by rw [hE]; omega)
      · have h16 : (ps.take 16).length = 16 := by
          rw [List.length_take]
          omega
        have hc16 : (zipXor (ps.take 16) (E key reg)).length = 16 := by
          rw [zipXor_length, h16, hE]
          omega
        rw [cfbEncrypt_eq, if_neg hps]
        have hcne : zipXor (ps.take 16) (E key reg) ++
            cfbEncrypt E key (zipXor (ps.take 16) (E key reg)) (ps.drop 16) ≠ [] := by
          intro hcon
          have := congrArg List.length hcon
          simp [hc16] at this
        rw [cfbDecrypt_eq, if_neg hcne]
        rw [List.take_left' hc16, List.drop_left' hc16]
        rw [zipXor_zipXor _ _ (by rw [h16, hE])]
        rw [ih (ps.length - 16) (by omega) (ps.drop 16) _ (by rw [List.length_drop])]
        exact List.take_append_drop 16 ps

theorem zipXor_set (a : List Nat) :
    ∀ (b : List Nat) (i : Nat) (x : Nat), i < a.length →
      zipXor (a.set i x) b = (zipXor a b).set i (x ^^^ b.getD i 0) := by
  induction a with
  | nil => intro b i x h; simp at h
  | cons av at_ ih =>
    intro b i x h
    cases b with
    | nil => simp [zipXor]
    | cons bv bt =>
      cases i with
      | zero => rfl
      | succ j =>
        show (av ^^^ bv) :: zipXor (at_.set j x) bt =
          ((av ^^^ bv) :: zipXor at_ bt).set (j + 1) (x ^^^ bt.getD j 0)
        rw [List.set_cons_succ, ih bt j x (by simpa using h)]

theorem zipXor_getD (a : List Nat) :
    ∀ (b : List Nat) (i : Nat), i < a.length → i < b.length →
      (zipXor a b).getD i 0 = a.getD i 0 ^^^ b.getD i 0 := by
  induction a with
  | nil => intro b i h _; simp at h
  | cons av at_ ih =>
    intro b i hi hb
    cases b with
    | nil => simp at hb
    | cons bv bt =>
      cases i with
      | zero => rfl
      | succ j =>
        show (zipXor at_ bt).getD j 0 = at_.getD j 0 ^^^ bt.getD j 0
        exact ih bt j (by simpa using hi) (by simpa using hb)

/-! ## UTF-8 (`str.encode("utf-8")` / `bytes.decode("utf-8")`) -/

/-- UTF-8 encoding of one scalar value, written with division and modulus
(equivalent to the standard bit layout). -/
def utf8EncodeChar (c : Char) : List Nat :=
  if c.toNat < 128 then [c.toNat]
  else if c.toNat < 2048 then [192 + c.toNat / 64, 128 + c.toNat % 64]
  else if c.toNat < 65536 then
    [224 + c.toNat / 4096, 128 + (c.toNat / 64) % 64, 128 + c.toNat % 64]
  else
    [240 + c.toNat / 262144, 128 + (c.toNat / 4096) % 64,
     128 + (c.toNat / 64) % 64, 128 + c.toNat % 64]

/-- Model of `message.encode("utf-8")`. -/
def utf8Encode (s : Str) : List Nat := (s.map utf8EncodeChar).flatten

/-- Is a byte a UTF-8 continuation byte (`10xxxxxx`)? -/
def isCont (x : Nat) : Prop := 128 ≤ x ∧ x < 192

instance (x : Nat) : Decidable (isCont x) := by
  unfold isCont
  infer_instance

/-- One scalar value of a strict UTF-8 stream: the leading byte determines
the length; stray or missing continuation bytes, overlong encodings,
surrogates and out-of-range values are rejected. -/
def utf8DecodeOne : List Nat → Option (Nat × List Nat)
  | [] => none
  | b :: rest =>
    if b < 128 then some (b, rest)
    else if b < 192 then none
    else if b < 224 then
      if 1 ≤ rest.length ∧ isCont (rest.getD 0 0) ∧
          128 ≤ (b - 192) * 64 + (rest.getD 0 0 - 128) then
        some ((b - 192) * 64 + (rest.getD 0 0 - 128), rest.drop 1)
      else none
    else if b < 240 then
      if 2 ≤ rest.length ∧ isCont (rest.getD 0 0) ∧ isCont (rest.getD 1 0) ∧
          2048 ≤ (b - 224) * 4096 + (rest.getD 0 0 - 128) * 64 + (rest.getD 1 0 - 128) ∧
          ¬(55296 ≤ (b - 224) * 4096 + (rest.getD 0 0 - 128) * 64 + (rest.getD 1 0 - 128) ∧
            (b - 224) * 4096 + (rest.getD 0 0 - 128) * 64 + (rest.getD 1 0 - 128) ≤ 57343) then
        some ((b - 224) * 4096 + (rest.getD 0 0 - 128) * 64 + (rest.getD 1 0 - 128), rest.drop 2)
      else none
    else if b < 248 then
      if 3 ≤ rest.length ∧ isCont (rest.getD 0 0) ∧ isCont (rest.getD 1 0) ∧
          isCont (rest.getD 2 0) ∧
          65536 ≤ (b - 240) * 262144 + (rest.getD 0 0 - 128) * 4096 +
            (rest.getD 1 0 - 128) * 64 + (rest.getD 2 0 - 128) ∧
          (b - 240) * 262144 + (rest.getD 0 0 - 128) * 4096 +
            (rest.getD 1 0 - 128) * 64 + (rest.getD 2 0 - 128) < 1114112 then
        some ((b - 240) * 262144 + (rest.getD 0 0 - 128) * 4096 +
          (rest.getD 1 0 - 128) * 64 + (rest.getD 2 0 - 128), rest.drop 3)
      else none
    else none

/-- Strict UTF-8 decoding, with the input length as (always sufficient)
structural fuel. -/
def utf8DecodeAux : Nat → List Nat → Option Str
  | 0, bs => if bs = [] then some [] else none
  | f + 1, bs =>
    if bs = [] then some []
    else
      match utf8DecodeOne bs with
      | none => none
      | some (v, rest2) => (utf8DecodeAux f rest2).map (fun t => Char.ofNat v :: t)

/-- Strict UTF-8 decoding as `bytes.decode("utf-8")`; `none` models the
`UnicodeDecodeError`. -/
def utf8Decode (bs : List Nat) : Option Str := utf8DecodeAux bs.length bs

theorem char_toNat_valid (c : Char) :
    c.toNat < 55296 ∨ (57343 < c.toNat ∧ c.toNat < 1114112) := by
  have h := c.valid
  rcases h with h | h
  · exact Or.inl h
  · exact Or.inr ⟨h.1, h.2⟩

theorem utf8DecodeOne_encodeChar (c : Char) (rest : List Nat) :
    utf8DecodeOne (utf8EncodeChar c ++ rest) = some (c.toNat, rest) := by
  have hvalid := char_toNat_valid c
  unfold utf8EncodeChar
  by_cases h1 : c.toNat < 128
  · rw [if_pos h1]
    show utf8DecodeOne (c.toNat :: rest) = _
    rw [utf8DecodeOne, if_pos h1]
  · rw [if_neg h1]
    by_cases h2 : c.toNat < 2048
    · rw [if_pos h2]
      show utf8DecodeOne ((192 + c.toNat / 64) :: (128 + c.toNat % 64) :: rest) = _
      rw [utf8DecodeOne]
      simp only [List.getD_cons_zero, List.getD_cons_succ, List.length_cons,
        List.drop_succ_cons, List.drop_zero, isCont]
      rw [if_neg (by omega), if_neg (by omega), if_pos (by omega)]
      have harith : (192 + c.toNat / 64 - 192) * 64 + (128 + c.toNat % 64 - 128) =
          c.toNat := by omega
      rw [harith, if_pos (by omega)]
    · rw [if_neg h2]
      by_cases h3 : c.toNat < 65536
      · rw [if_pos h3]
        show utf8DecodeOne ((224 + c.toNat / 4096) :: (128 + (c.toNat / 64) % 64) ::
          (128 + c.toNat % 64) :: rest) = _
        rw [utf8DecodeOne]
        simp only [List.getD_cons_zero, List.getD_cons_succ, List.length_cons,
          List.drop_succ_cons, List.drop_zero, isCont]
        rw [if_neg (by omega), if_neg (by omega), if_neg (by omega), if_pos (by omega)]
        have harith : (224 + c.toNat / 4096 - 224) * 4096 +
            (128 + (c.toNat / 64) % 64 - 128) * 64 + (128 + c.toNat % 64 - 128) =
            c.toNat := by omega
        rw [harith, if_pos (by omega)]
      · rw [if_neg h3]
        show utf8DecodeOne ((240 + c.toNat / 262144) :: (128 + (c.toNat / 4096) % 64) ::
          (128 + (c.toNat / 64) % 64) :: (128 + c.toNat % 64) :: rest) = _
        rw [utf8DecodeOne]
        simp only [List.getD_cons_zero, List.getD_cons_succ, List.length_cons,
          List.drop_succ_cons, List.drop_zero, isCont]
        rw [if_neg (by omega), if_neg (by omega), if_neg (by omega),
          if_neg (by omega), if_pos (by omega)]
        have harith : (240 + c.toNat / 262144 - 240) * 262144 +
            (128 + (c.toNat / 4096) % 64 - 128) * 4096 +
            (128 + (c.toNat / 64) % 64 - 128) * 64 + (128 + c.toNat % 64 - 128) =
            c.toNat := by omega
        rw [harith, if_pos (by omega)]

theorem utf8EncodeChar_ne_nil (c : Char) : utf8EncodeChar c ≠ [] := by
  unfold utf8EncodeChar
  by_cases h1 : c.toNat < 128
  · rw [if_pos h1]; simp
  · rw [if_neg h1]
    by_cases h2 : c.toNat < 2048
    · rw [if_pos h2]; simp
    · rw [if_neg h2]
      by_cases h3 : c.toNat < 65536
      · rw [if_pos h3]; simp
      · rw [if_neg h3]; simp

theorem utf8DecodeAux_encode (s : Str) :
    ∀ fuel : Nat, (utf8Encode s).length ≤ fuel →
      utf8DecodeAux fuel (utf8Encode s) = some s := by
  induction s with
  | nil =>
    intro fuel _
    cases fuel <;> rfl
  | cons c t ih =>
    intro fuel hfuel
    have hshape : utf8Encode (c :: t) = utf8EncodeChar c ++ utf8Encode t := rfl
    have hne : utf8Encode (c :: t) ≠ [] := by
      rw [hshape]
      intro hcon
      exact utf8EncodeChar_ne_nil c (List.append_eq_nil.mp hcon).1
    have hlen1 : 1 ≤ (utf8EncodeChar c).length :=
      List.length_pos.mpr (utf8EncodeChar_ne_nil c)
    cases fuel with
    | zero =>
      exfalso
      have := List.length_pos.mpr hne
      omega
    | succ f =>
      rw [utf8DecodeAux, if_neg hne]
      rw [hshape, utf8DecodeOne_encodeChar]
      have hrec : utf8DecodeAux f (utf8Encode t) = some t := by
        apply ih
        rw [hshape] at hfuel
        rw [List.length_append] at hfuel
        omega
      show (utf8DecodeAux f (utf8Encode t)).map (fun t => Char.ofNat c.toNat :: t) = _
      rw [hrec, Char.ofNat_toNat]
      rfl

theorem utf8_roundtrip (s : Str) : utf8Decode (utf8Encode s) = some s :=
  utf8DecodeAux_encode s (utf8Encode s).length (Nat.le_refl _)

theorem utf8EncodeChar_lt_256 (c : Char) : ∀ x ∈ utf8EncodeChar c, x < 256 := by
  have hvalid := char_toNat_valid c
  intro x hx
  unfold utf8EncodeChar at hx
  by_cases h1 : c.toNat < 128
  · rw [if_pos h1] at hx
    simp at hx
    omega
  · rw [if_neg h1] at hx
    by_cases h2 : c.toNat < 2048
    · rw [if_pos h2] at hx
      simp at hx
      rcases hx with h | h <;> omega
    · rw [if_neg h2] at hx
      by_cases h3 : c.toNat < 65536
      · rw [if_pos h3] at hx
        simp at hx
        rcases hx with h | h | h <;> omega
      · rw [if_neg h3] at hx
        simp at hx
        rcases hx with h | h | h | h <;> omega

theorem utf8Encode_lt_256 (s : Str) : ∀ x ∈ utf8Encode s, x < 256 := by
  induction s with
  | nil => intro x hx; simp [utf8Encode] at hx
  | cons c t ih =>
    intro x hx
    have hx2 : x ∈ utf8EncodeChar c ++ utf8Encode t := hx
    rcases List.mem_append.mp hx2 with h | h
    · exact utf8EncodeChar_lt_256 c x h
    · exact ih x h

/-! ## Base64 round trip -/

theorem b64Val_encChar : ∀ v < 64, b64Val (encChar v) = some v := by decide

theorem encChar_ne_pad (v : Nat) : encChar v ≠ '=' := by
  by_cases h : v < 64
  · exact (by decide : ∀ w < 64, encChar w ≠ '=') v h
  · unfold encChar
    rw [if_neg (by omega), if_neg (by omega), if_neg (by omega), if_neg (by omega)]
    decide

theorem isB64Sym_encChar (v : Nat) : isB64Sym (encChar v) = true := by
  by_cases h : v < 64
  · exact (by decide : ∀ w < 64, isB64Sym (encChar w) = true) v h
  · unfold encChar
    rw [if_neg (by omega), if_neg (by omega), if_neg (by omega), if_neg (by omega)]
    decide

theorem b64encode_symbols (bs : List Nat) : ∀ c ∈ b64encode bs, isB64Sym c = true := by
  induction bs using b64encode.induct with
  | case1 =>
    intro c hc
    simp [b64encode] at hc
  | case2 b1 =>
    intro c hc
    have hc2 : c ∈ [encChar (b1 / 4), encChar ((b1 % 4) * 16), '=', '='] := hc
    simp only [List.mem_cons, List.not_mem_nil, or_false] at hc2
    rcases hc2 with h | h | h | h <;> subst h
    · exact isB64Sym_encChar _
    · exact isB64Sym_encChar _
    · decide
    · decide
  | case3 b1 b2 =>
    intro c hc
    have hc2 : c ∈ [encChar (b1 / 4), encChar ((b1 % 4) * 16 + b2 / 16),
        encChar ((b2 % 16) * 4), '='] := hc
    simp only [List.mem_cons, List.not_mem_nil, or_false] at hc2
    rcases hc2 with h | h | h | h <;> subst h
    · exact isB64Sym_encChar _
    · exact isB64Sym_encChar _
    · exact isB64Sym_encChar _
    · decide
  | case4 b1 b2 b3 rest ih =>
    intro c hc
    have hc2 : c ∈ encChar (b1 / 4) :: encChar ((b1 % 4) * 16 + b2 / 16) ::
        encChar ((b2 % 16) * 4 + b3 / 64) :: encChar (b3 % 64) :: b64encode rest := hc
    simp only [List.mem_cons] at hc2
    rcases hc2 with h | h | h | h | h
    · subst h; exact isB64Sym_encChar _
    · subst h; exact isB64Sym_encChar _
    · subst h; exact isB64Sym_encChar _
    · subst h; exact isB64Sym_encChar _
    · exact ih c h

theorem b64encode_no_quote (bs : List Nat) : ∀ c ∈ b64encode bs, c ≠ '"' := by
  intro c hc hcon
  have h := b64encode_symbols bs c hc
  rw [hcon] at h
  exact absurd h (by decide)

theorem decodeQuads_encode : ∀ bs : List Nat, (∀ b ∈ bs, b < 256) →
    decodeQuads (b64encode bs) = some bs := by
  intro bs
  induction bs using b64encode.induct with
  | case1 => intro _; rfl
  | case2 b1 =>
    intro hb
    have h1 : b1 < 256 := hb b1 (by simp)
    show decodeQuads (encChar (b1 / 4) :: encChar ((b1 % 4) * 16) :: '=' :: '=' :: []) = _
    rw [decodeQuads, if_pos rfl, if_pos ⟨rfl, rfl⟩,
      b64Val_encChar _ (by omega), b64Val_encChar _ (by omega)]
    show some [b1 / 4 * 4 + b1 % 4 * 16 / 16] = some [b1]
    have h : b1 / 4 * 4 + b1 % 4 * 16 / 16 = b1 := by omega
    rw [h]
  | case3 b1 b2 =>
    intro hb
    have h1 : b1 < 256 := hb b1 (by simp)
    have h2 : b2 < 256 := hb b2 (by simp)
    show decodeQuads (encChar (b1 / 4) :: encChar ((b1 % 4) * 16 + b2 / 16) ::
      encChar ((b2 % 16) * 4) :: '=' :: []) = _
    rw [decodeQuads, if_neg (encChar_ne_pad _), if_pos rfl, if_pos rfl,
      b64Val_encChar _ (by omega), b64Val_encChar _ (by omega),
      b64Val_encChar _ (by omega)]
    show some [b1 / 4 * 4 + ((b1 % 4) * 16 + b2 / 16) / 16,
      ((b1 % 4) * 16 + b2 / 16) % 16 * 16 + (b2 % 16) * 4 / 4] = some [b1, b2]
    have ha : b1 / 4 * 4 + ((b1 % 4) * 16 + b2 / 16) / 16 = b1 := by omega
    have hbq : ((b1 % 4) * 16 + b2 / 16) % 16 * 16 + (b2 % 16) * 4 / 4 = b2 := by omega
    rw [ha, hbq]
  | case4 b1 b2 b3 rest ih =>
    intro hb
    have h1 : b1 < 256 := hb b1 (by simp)
    have h2 : b2 < 256 := hb b2 (by simp)
    have h3 : b3 < 256 := hb b3 (by simp)
    have hrest : ∀ b ∈ rest, b < 256 := fun b hbm => hb b (by simp [hbm])
    show decodeQuads (encChar (b1 / 4) :: encChar ((b1 % 4) * 16 + b2 / 16) ::
      encChar ((b2 % 16) * 4 + b3 / 64) :: encChar (b3 % 64) :: b64encode rest) = _
    rw [decodeQuads, if_neg (encChar_ne_pad _), if_neg (encChar_ne_pad _),
      b64Val_encChar _ (by omega), b64Val_encChar _ (by omega),
      b64Val_encChar _ (by omega), b64Val_encChar _ (by omega), ih hrest]
    show some ((b1 / 4 * 4 + ((b1 % 4) * 16 + b2 / 16) / 16) ::
      (((b1 % 4) * 16 + b2 / 16) % 16 * 16 + ((b2 % 16) * 4 + b3 / 64) / 4) ::
      (((b2 % 16) * 4 + b3 / 64) % 4 * 64 + b3 % 64) :: rest) =
      some (b1 :: b2 :: b3 :: rest)
    have ha : b1 / 4 * 4 + ((b1 % 4) * 16 + b2 / 16) / 16 = b1 := by omega
    have hbq : ((b1 % 4) * 16 + b2 / 16) % 16 * 16 + ((b2 % 16) * 4 + b3 / 64) / 4 = b2 := by
      omega
    have hcq : ((b2 % 16) * 4 + b3 / 64) % 4 * 64 + b3 % 64 = b3 := by omega
    rw [ha, hbq, hcq]

theorem b64_roundtrip (bs : List Nat) (hb : ∀ b ∈ bs, b < 256) :
    b64decode (b64encode bs) = some bs := by
  unfold b64decode
  rw [List.filter_eq_self.mpr (b64encode_symbols bs)]
  exact decodeQuads_encode bs hb

theorem b64encode_injOn (xs ys : List Nat) (hx : ∀ b ∈ xs, b < 256)
    (hy : ∀ b ∈ ys, b < 256) (h : b64encode xs = b64encode ys) : xs = ys := by
  have h1 := b64_roundtrip xs hx
  have h2 := b64_roundtrip ys hy
  rw [h] at h1
  rw [h1] at h2
  exact Option.some.inj h2

/-! ## The encrypted envelope (`EncryptionManager`, `src/utils/encryption.py`)

The envelope is the `json.dumps` of the three-field dictionary built in
`encrypt_message`; `parsePackage` models `json.loads` restricted to the
exact text shape `json.dumps` produces for that dictionary (the fields are
base64 text, so no JSON escapes arise); any other input yields `none`,
as the `except` clause of `decrypt_message` turns parse failures into
`None`. -/

structure EncryptedPackage where
  encrypted_key : Str
  iv : Str
  ciphertext : Str
deriving DecidableEq

/-- Model of the `json.dumps` of the three-field envelope dictionary. -/
def dumpsPackage (p : EncryptedPackage) : Str :=
  str "\x7b\"encrypted_key\": \"" ++ p.encrypted_key ++ str "\", \"iv\": \"" ++
    p.iv ++ str "\", \"ciphertext\": \"" ++ p.ciphertext ++ str "\"\x7d"

/-- Drop an expected literal prefix; `none` when the input does not start
with it. -/
def dropPrefixStr : Str → Str → Option Str
  | [], s => some s
  | _ :: _, [] => none
  | p :: ps, c :: cs => if c = p then dropPrefixStr ps cs else none

/-- Model of `json.loads` on the exact envelope shape produced by `dumpsPackage`. -/
def parsePackage (s : Str) : Option EncryptedPackage :=
  match dropPrefixStr (str "\x7b\"encrypted_key\": \"") s with
  | none => none
  | some r1 =>
    match splitOnceChar '"' r1 with
    | none => none
    | some (ek, r2) =>
      match dropPrefixStr (str ", \"iv\": \"") r2 with
      | none => none
      | some r3 =>
        match splitOnceChar '"' r3 with
        | none => none
        | some (iv, r4) =>
          match dropPrefixStr (str ", \"ciphertext\": \"") r4 with
          | none => none
          | some r5 =>
            match splitOnceChar '"' r5 with
            | none => none
            | some (ct, r6) =>
              if r6 = str "\x7d" then some ⟨ek, iv, ct⟩ else none

theorem dropPrefixStr_append (pat : Str) : ∀ rest : Str,
    dropPrefixStr pat (pat ++ rest) = some rest := by
  induction pat with
  | nil => intro rest; rfl
  | cons p ps ih =>
    intro rest
    show (if p = p then dropPrefixStr ps (ps ++ rest) else none) = some rest
    rw [if_pos rfl, ih rest]

theorem splitOnceChar_no_sep (sep : Char) : ∀ (a rest : Str),
    (∀ c ∈ a, c ≠ sep) → splitOnceChar sep (a ++ sep :: rest) = some (a, rest) := by
  intro a
  induction a with
  | nil =>
    intro rest _
    show (if sep = sep then some ([], rest) else _) = _
    rw [if_pos rfl]
  | cons x xs ih =>
    intro rest h
    show (if x = sep then some ([], xs ++ sep :: rest)
      else (splitOnceChar sep (xs ++ sep :: rest)).map fun p => (x :: p.1, p.2)) = _
    rw [if_neg (h x (by simp)), ih rest (fun c hc => h c (by simp [hc]))]
    rfl

theorem parsePackage_dumps (p : EncryptedPackage)
    (h1 : ∀ c ∈ p.encrypted_key, c ≠ '"') (h2 : ∀ c ∈ p.iv, c ≠ '"')
    (h3 : ∀ c ∈ p.ciphertext, c ≠ '"') :
    parsePackage (dumpsPackage p) = some p := by
  have hshape : dumpsPackage p =
      str "\x7b\"encrypted_key\": \"" ++
        (p.encrypted_key ++ '"' :: (str ", \"iv\": \"" ++
          (p.iv ++ '"' :: (str ", \"ciphertext\": \"" ++
            (p.ciphertext ++ '"' :: str "\x7d"))))) := by
    unfold dumpsPackage
    simp only [List.append_assoc]
    rfl
  unfold parsePackage
  rw [hshape]
  simp only [dropPrefixStr_append, splitOnceChar_no_sep _ _ _ h1,
    splitOnceChar_no_sep _ _ _ h2, splitOnceChar_no_sep _ _ _ h3]
  simp

/-! ## `EncryptionManager.encrypt_message` / `decrypt_message`

RSA-OAEP under the peer's public key is the external primitive
`recipient_key.encrypt` / `private_key.decrypt`; it is modeled as a pair
of functions — a wrap taking the OAEP seed (the primitive's internal
randomness) and the 32-byte AES key, and an unwrap returning `none` on
failure — constrained in the theorems by its documented round-trip
contract.  `os.urandom(32)` and `os.urandom(16)` are the explicit
`aesKey` / `iv` arguments: fresh randomness drawn per call. -/

/-- A peer public key as an operation: OAEP seed → plaintext → ciphertext. -/
abbrev RsaPub := List Nat → List Nat → List Nat

/-- The local private key as an operation: ciphertext → plaintext, `none`
modeling the exception on an invalid ciphertext. -/
abbrev RsaPriv := List Nat → Option (List Nat)

/-- The in-memory state of an `EncryptionManager`: the loaded private key
and the peer-key cache (`peer_keys`); the on-disk mirrors are not modeled
(they only repopulate the cache). -/
structure EncryptionManager where
  private_key : Option RsaPriv
  peer_keys : List (Str × RsaPub)

/-- Model of `load_peer_key` (memory path; the disk path only refills the cache). -/
def load_peer_key (m : EncryptionManager) (username : Str) : Option RsaPub :=
  dictGet m.peer_keys username

/-- Model of `EncryptionManager.encrypt_message(message, recipient_username)`:
`None` without a peer key on file; otherwise wrap the fresh 256-bit AES
key under the peer's RSA-OAEP key, CFB-encrypt the UTF-8 message bytes
under the fresh IV, and emit the JSON envelope of the three
base64-encoded fields. -/
def encrypt_message (E : AesBlock) (m : EncryptionManager)
    (aesKey iv seed : List Nat) (message recipient : Str) : Option Str :=
  match load_peer_key m recipient with
  | none => none
  | some recipientKey =>
    some (dumpsPackage
      ⟨b64encode (recipientKey seed aesKey), b64encode iv,
       b64encode (cfbEncrypt E aesKey iv (utf8Encode message))⟩)

/-- Model of `EncryptionManager.decrypt_message(encrypted_message)`: `None` without
a private key; parse the envelope, base64-decode the three fields, unwrap
the AES key, check the key/IV sizes the `cryptography` constructors
enforce, CFB-decrypt and UTF-8-decode; every failure path yields `None`
(the source wraps the body in `try/except`). -/
def decrypt_message (E : AesBlock) (m : EncryptionManager)
    (encryptedMessage : Str) : Option Str :=
  match m.private_key with
  | none => none
  | some privateKey =>
    match parsePackage encryptedMessage with
    | none => none
    | some pkg =>
      match b64decode pkg.encrypted_key, b64decode pkg.iv, b64decode pkg.ciphertext with
      | some encryptedKey, some iv, some ciphertext =>
        match privateKey encryptedKey with
        | none => none
        | some aesKey =>
          if (aesKey.length = 16 ∨ aesKey.length = 24 ∨ aesKey.length = 32) ∧
              iv.length = 16 then
            utf8Decode (cfbDecrypt E aesKey iv ciphertext)
          else none
      | _, _, _ => none

/-- Model of `is_encrypted_message`: structural sniff for the three envelope
fields. -/
def is_encrypted_message (s : Str) : Bool :=
  (parsePackage s).isSome

/-- Bytes of a xor of two sub-256 byte streams stay below 256. -/
theorem zipXor_lt_256 (a : List Nat) : ∀ b : List Nat, (∀ x ∈ a, x < 256) →
    (∀ x ∈ b, x < 256) → ∀ y ∈ zipXor a b, y < 256 := by
  induction a with
  | nil =>
    intro b _ _ y hy
    simp [zipXor] at hy
  | cons xa ta ih =>
    intro b ha hb y hy
    cases b with
    | nil => simp [zipXor] at hy
    | cons xb tb =>
      rcases List.mem_cons.mp hy with h | h
      · subst h
        have h1 : xa < 256 := ha xa (by simp)
        have h2 : xb < 256 := hb xb (by simp)
        calc xa ^^^ xb < 2 ^ 8 := Nat.xor_lt_two_pow h1 h2
        _ = 256 := rfl
      · exact ih tb (fun x hx => ha x (by simp [hx])) (fun x hx => hb x (by simp [hx])) y h

/-- Bytes of a CFB stream stay below 256 when the plaintext and keystream
bytes do. -/
theorem cfbEncrypt_lt_256 (E : AesBlock) (key : List Nat)
    (hE : ∀ k b, ∀ x ∈ E k b, x < 256) :
    ∀ (n : Nat) (ps reg : List Nat), ps.length = n → (∀ x ∈ ps, x < 256) →
      ∀ x ∈ cfbEncrypt E key reg ps, x < 256 := by
  intro n
  induction n using Nat.strong_induction_on with
  | _ n ih =>
    intro ps reg hn hps x hx
    by_cases hnil : ps = []
    · subst hnil
      rw [cfbEncrypt_nil] at hx
      simp at hx
    · rw [cfbEncrypt_eq, if_neg hnil] at hx
      have hxor : ∀ y ∈ zipXor (ps.take 16) (E key reg), y < 256 :=
        zipXor_lt_256 (ps.take 16) (E key reg)
          (fun x hx => hps x (List.mem_of_mem_take hx)) (hE key reg)
      rcases List.mem_append.mp hx with h | h
      · exact hxor x h
      · have hpos : 0 < ps.length := List.length_pos.mpr hnil
        exact ih (ps.length - 16) (by omega) (ps.drop 16) _
          (by rw [List.length_drop]) (fun y hy => hps y (List.mem_of_mem_drop hy)) x h

/-! ## C3 — hybrid round trip and per-call freshness -/

/-- C3: with the peer's public key on file and the receiving engine
holding the matching private key — for every block cipher satisfying the
block contract and every RSA-OAEP wrap/unwrap behaving as documented on
the wrapped key — decrypting an `encrypt_message` envelope returns exactly
the original text; and the envelope is built from the per-call
`os.urandom` draws, so two calls whose fresh IV draws differ produce
different envelopes (even with identical message and peer). -/
theorem c3_encrypt_roundtrip_freshness
    (E : AesBlock) (pubE : RsaPub) (privD : RsaPriv)
    (senderMgr recvMgr : EncryptionManager) (recipient M : Str)
    (aesKey iv seed : List Nat)
    (hElen : ∀ k b, (E k b).length = 16)
    (hE256 : ∀ k b, ∀ x ∈ E k b, x < 256)
    (hwrap256 : ∀ b ∈ pubE seed aesKey, b < 256)
    (hunwrap : privD (pubE seed aesKey) = some aesKey)
    (hpeer : load_peer_key senderMgr recipient = some pubE)
    (hpriv : recvMgr.private_key = some privD)
    (hkeyLen : aesKey.length = 32)
    (hivLen : iv.length = 16) (hiv256 : ∀ b ∈ iv, b < 256)
    (hM : M ≠ []) :
    (∀ env, encrypt_message E senderMgr aesKey iv seed M recipient = some env →
      decrypt_message E recvMgr env = some M) ∧
    (∀ (aesKey2 iv2 seed2 : List Nat) (env env2 : Str),
      iv2.length = 16 → (∀ b ∈ iv2, b < 256) → iv ≠ iv2 →
      encrypt_message E senderMgr aesKey iv seed M recipient = some env →
      encrypt_message E senderMgr aesKey2 iv2 seed2 M recipient = some env2 →
      env ≠ env2) := by
  have hct256 : ∀ x ∈ cfbEncrypt E aesKey iv (utf8Encode M), x < 256 :=
    cfbEncrypt_lt_256 E aesKey hE256 (utf8Encode M).length (utf8Encode M) iv rfl
      (utf8Encode_lt_256 M)
  constructor
  · intro env henv
    have henv2 : env = dumpsPackage
        ⟨b64encode (pubE seed aesKey), b64encode iv,
         b64encode (cfbEncrypt E aesKey iv (utf8Encode M))⟩ := by
      unfold encrypt_message at henv
      rw [hpeer] at henv
      exact (Option.some.inj henv).symm
    subst henv2
    simp only [decrypt_message, hpriv,
      parsePackage_dumps
        (⟨b64encode (pubE seed aesKey), b64encode iv,
          b64encode (cfbEncrypt E aesKey iv (utf8Encode M))⟩ : EncryptedPackage)
        (b64encode_no_quote _) (b64encode_no_quote _) (b64encode_no_quote _),
      b64_roundtrip _ hwrap256, b64_roundtrip _ hiv256, b64_roundtrip _ hct256,
      hunwrap]
    rw [if_pos ⟨Or.inr (Or.inr hkeyLen), hivLen⟩]
    rw [cfb_roundtrip E aesKey hElen (utf8Encode M).length (utf8Encode M) iv rfl]
    exact utf8_roundtrip M
  · intro aesKey2 iv2 seed2 env env2 hiv2len hiv2256 hne henv henv2 hcon
    have he1 : env = dumpsPackage
        ⟨b64encode (pubE seed aesKey), b64encode iv,
         b64encode (cfbEncrypt E aesKey iv (utf8Encode M))⟩ := by
      unfold encrypt_message at henv
      rw [hpeer] at henv
      exact (Option.some.inj henv).symm
    have he2 : env2 = dumpsPackage
        ⟨b64encode (pubE seed2 aesKey2), b64encode iv2,
         b64encode (cfbEncrypt E aesKey2 iv2 (utf8Encode M))⟩ := by
      unfold encrypt_message at henv2
      rw [hpeer] at henv2
      exact (Option.some.inj henv2).symm
    subst he1
    subst he2
    have hp1 := parsePackage_dumps
      (⟨b64encode (pubE seed aesKey), b64encode iv,
        b64encode (cfbEncrypt E aesKey iv (utf8Encode M))⟩ : EncryptedPackage)
      (b64encode_no_quote _) (b64encode_no_quote _) (b64encode_no_quote _)
    have hp2 := parsePackage_dumps
      (⟨b64encode (pubE seed2 aesKey2), b64encode iv2,
        b64encode (cfbEncrypt E aesKey2 iv2 (utf8Encode M))⟩ : EncryptedPackage)
      (b64encode_no_quote _) (b64encode_no_quote _) (b64encode_no_quote _)
    rw [hcon, hp2] at hp1
    have hpkg := Option.some.inj hp1
    have hivfield : b64encode iv2 = b64encode iv := congrArg EncryptedPackage.iv hpkg
    exact hne (b64encode_injOn iv iv2 hiv256 hiv2256 hivfield.symm)

/-! ## C4 — tampering with a ciphertext byte -/

/-- C4 (amended): `decrypt_message` is a total function (every failure is
`None`, never an exception), but CFB mode is unauthenticated, so the claim
that a tampered envelope always decrypts to `None` fails.  Precisely, for
a single-segment message (UTF-8 length at most 16 bytes): replacing byte
`i` of the envelope's ciphertext with `newByte` makes `decrypt_message`
return the UTF-8 decoding of the original plaintext with byte `i` xored
by the ciphertext delta — `None` exactly when the perturbed byte string is
not valid UTF-8, and otherwise a plaintext differing from the original at
that byte. -/
theorem c4_tamper_single_segment
    (E : AesBlock) (pubE : RsaPub) (privD : RsaPriv)
    (recvMgr : EncryptionManager) (M : Str)
    (aesKey iv seed : List Nat) (i newByte : Nat)
    (hElen : ∀ k b, (E k b).length = 16)
    (hE256 : ∀ k b, ∀ x ∈ E k b, x < 256)
    (hwrap256 : ∀ b ∈ pubE seed aesKey, b < 256)
    (hunwrap : privD (pubE seed aesKey) = some aesKey)
    (hpriv : recvMgr.private_key = some privD)
    (hkeyLen : aesKey.length = 32)
    (hivLen : iv.length = 16) (hiv256 : ∀ b ∈ iv, b < 256)
    (hM16 : (utf8Encode M).length ≤ 16)
    (hi : i < (utf8Encode M).length) (hnew : newByte < 256) :
    decrypt_message E recvMgr (dumpsPackage
      ⟨b64encode (pubE seed aesKey), b64encode iv,
       b64encode ((cfbEncrypt E aesKey iv (utf8Encode M)).set i newByte)⟩) =
    utf8Decode ((utf8Encode M).set i
      ((utf8Encode M).getD i 0 ^^^
        ((cfbEncrypt E aesKey iv (utf8Encode M)).getD i 0 ^^^ newByte))) := by
  have hks16 : (E aesKey iv).length = 16 := hElen aesKey iv
  have hct : cfbEncrypt E aesKey iv (utf8Encode M) =
      zipXor (utf8Encode M) (E aesKey iv) :=
    cfbEncrypt_short E aesKey iv (utf8Encode M) hM16
  have hctlen : (cfbEncrypt E aesKey iv (utf8Encode M)).length =
      (utf8Encode M).length := by
    rw [hct, zipXor_length, hks16]
    omega
  have hct256 : ∀ x ∈ cfbEncrypt E aesKey iv (utf8Encode M), x < 256 :=
    cfbEncrypt_lt_256 E aesKey hE256 (utf8Encode M).length (utf8Encode M) iv rfl
      (utf8Encode_lt_256 M)
  have htampered256 : ∀ x ∈ (cfbEncrypt E aesKey iv (utf8Encode M)).set i newByte,
      x < 256 := by
    intro x hx
    rcases List.mem_or_eq_of_mem_set hx with h | h
    · exact hct256 x h
    · omega
  simp only [decrypt_message, hpriv,
    parsePackage_dumps
      (⟨b64encode (pubE seed aesKey), b64encode iv,
        b64encode ((cfbEncrypt E aesKey iv (utf8Encode M)).set i newByte)⟩ :
          EncryptedPackage)
      (b64encode_no_quote _) (b64encode_no_quote _) (b64encode_no_quote _),
    b64_roundtrip _ hwrap256, b64_roundtrip _ hiv256, b64_roundtrip _ htampered256,
    hunwrap]
  rw [if_pos ⟨Or.inr (Or.inr hkeyLen), hivLen⟩]
  rw [cfbDecrypt_short E aesKey iv _ (by rw [List.length_set, hctlen]; omega)]
  rw [hct]
  rw [zipXor_set _ _ _ _ (by rw [zipXor_length, hks16]; omega)]
  rw [zipXor_zipXor _ _ (by rw [hks16]; omega)]
  have hval : newByte ^^^ (E aesKey iv).getD i 0 =
      (utf8Encode M).getD i 0 ^^^
        ((zipXor (utf8Encode M) (E aesKey iv)).getD i 0 ^^^ newByte) := by
    rw [zipXor_getD _ _ _ hi (by omega), ← Nat.xor_assoc, Nat.xor_cancel_left,
      Nat.xor_comm]
  rw [hval]

/-! ## Concrete instances for the crypto witnesses

The external primitives are instantiated with any pair satisfying the
stated contracts; the theorems quantify over all such pairs, so the choice
below (identity wrap, zero keystream) is admissible and keeps the kernel
evaluation small. -/

/-- A wrap that returns the key material unchanged (admissible: its unwrap
recovers it). -/
def idPub : RsaPub := fun _ x => x

/-- The matching unwrap. -/
def idPriv : RsaPriv := fun x => some x

/-- A block function with an all-zero keystream (satisfies the block
contract: 16 bytes out, all below 256). -/
def zeroBlock : AesBlock := fun _ _ => List.replicate 16 0

theorem zeroBlock_len : ∀ k b, (zeroBlock k b).length = 16 := fun _ _ => rfl

theorem zeroBlock_256 : ∀ k b, ∀ x ∈ zeroBlock k b, x < 256 := by
  intro k b x hx
  have h := List.eq_of_mem_replicate hx
  omega

/-- Sender-side manager with Bob's key on file. -/
def mgrSender : EncryptionManager := ⟨none, [(str "bob", idPub)]⟩

/-- Receiver-side manager holding the private key. -/
def mgrRecv : EncryptionManager := ⟨some idPriv, []⟩

/-- The fresh 256-bit key draw of the demo call. -/
def keyDemo : List Nat := List.replicate 32 0

/-- The fresh IV draw of the demo call. -/
def ivDemo : List Nat := List.replicate 16 0

/-- A different IV draw (first byte differs). -/
def ivDemo2 : List Nat := 1 :: List.replicate 15 0

/-- Witness for C3: a concrete round trip, and two calls with different IV
draws produce different envelopes. -/
theorem c3_encrypt_roundtrip_freshness_witness :
    decrypt_message zeroBlock mgrRecv (dumpsPackage
      ⟨b64encode (idPub [] keyDemo), b64encode ivDemo,
       b64encode (cfbEncrypt zeroBlock keyDemo ivDemo (utf8Encode (str "hi")))⟩) =
      some (str "hi") ∧
    dumpsPackage
      ⟨b64encode (idPub [] keyDemo), b64encode ivDemo,
       b64encode (cfbEncrypt zeroBlock keyDemo ivDemo (utf8Encode (str "hi")))⟩ ≠
    dumpsPackage
      ⟨b64encode (idPub [] keyDemo), b64encode ivDemo2,
       b64encode (cfbEncrypt zeroBlock keyDemo ivDemo2 (utf8Encode (str "hi")))⟩ :=
  ⟨(c3_encrypt_roundtrip_freshness zeroBlock idPub idPriv mgrSender mgrRecv
      (str "bob") (str "hi") keyDemo ivDemo [] zeroBlock_len zeroBlock_256
      (by decide) (by decide) rfl rfl (by decide) (by decide)
      (by decide) (by decide)).1 _ rfl,
   (c3_encrypt_roundtrip_freshness zeroBlock idPub idPriv mgrSender mgrRecv
      (str "bob") (str "hi") keyDemo ivDemo [] zeroBlock_len zeroBlock_256
      (by decide) (by decide) rfl rfl (by decide) (by decide)
      (by decide) (by decide)).2 keyDemo ivDemo2 [] _ _
      (by decide) (by decide) (by decide) rfl rfl⟩

/-- C4 counterexample: the envelope of `"hello"` under the demo primitives,
with byte 0 of its ciphertext replaced (a genuine change: the original
byte is 104), decrypts to `some "iello"` — not `None`, and not the
original plaintext — refuting the claim that any single-byte ciphertext
tampering yields `None`. -/
theorem c4_tamper_counterexample :
    encrypt_message zeroBlock mgrSender keyDemo ivDemo [] (str "hello") (str "bob") =
      some (dumpsPackage
        ⟨b64encode (idPub [] keyDemo), b64encode ivDemo,
         b64encode (cfbEncrypt zeroBlock keyDemo ivDemo (utf8Encode (str "hello")))⟩) ∧
    (cfbEncrypt zeroBlock keyDemo ivDemo (utf8Encode (str "hello"))).getD 0 0 = 104 ∧
    decrypt_message zeroBlock mgrRecv (dumpsPackage
      ⟨b64encode (idPub [] keyDemo), b64encode ivDemo,
       b64encode ((cfbEncrypt zeroBlock keyDemo ivDemo (utf8Encode (str "hello"))).set 0 105)⟩) =
      some (str "iello") ∧
    some (str "iello") ≠ (none : Option Str) ∧
    some (str "iello") ≠ some (str "hello") :=
  ⟨by decide, by decide, by decide, by decide, by decide⟩

/-- Witness for C4 (amended theorem) at a concrete tampered byte. -/
theorem c4_tamper_single_segment_witness :
    decrypt_message zeroBlock mgrRecv (dumpsPackage
      ⟨b64encode (idPub [] keyDemo), b64encode ivDemo,
       b64encode ((cfbEncrypt zeroBlock keyDemo ivDemo (utf8Encode (str "hello"))).set 1 100)⟩) =
    utf8Decode ((utf8Encode (str "hello")).set 1
      ((utf8Encode (str "hello")).getD 1 0 ^^^
        ((cfbEncrypt zeroBlock keyDemo ivDemo (utf8Encode (str "hello"))).getD 1 0 ^^^ 100))) :=
  c4_tamper_single_segment zeroBlock idPub idPriv mgrRecv (str "hello")
    keyDemo ivDemo [] 1 100 zeroBlock_len zeroBlock_256 (by decide) (by decide)
    rfl (by decide) (by decide) (by decide) (by decide) (by decide)
    (by decide)

end CliChat
